import Mathlib

/-!
Verification development for the RARO kernel-server (Rust) core.

Shallow embedding of apps/kernel-server/src: the DAG structure (dag.rs),
the run-state operations, rehydration and delegation splicing (runtime.rs),
the pattern engine (registry.rs, main.rs) and the payload assembler's
pre-flight checks (runtime.rs).

Modelling conventions:
* HashSet String is a duplicate-free List String (insert-if-absent).
* HashMap String (Vec String) is a key-unique association list
  List (String × List String); iteration order of the hash map is
  unspecified in the source, the list order stands in for it.
* Uuid.new_v4 and Utc.now are environment inputs; functions that consume
  them take the generated string as an explicit parameter.
* Fallible Rust functions returning Result become Except.
* Recursive traversals carry explicit fuel; a fuel budget derived from the
  input is proved sufficient wherever the source recursion terminates.
-/

/-- Errors of dag.rs (enum DAGError). -/
inductive DAGError
  | CycleDetected
  | InvalidNode (s : String)
  | DependencyNotFound (s : String)
  | EdgeNotFound (a b : String)
deriving DecidableEq

/-- struct DAG of dag.rs: a node set and an adjacency list source → targets. -/
structure DAG where
  nodes : List String
  edges : List (String × List String)
deriving DecidableEq

/-- DAG::new. -/
def DAG.new : DAG := ⟨[], []⟩

/-- Lookup of HashMap::get on the adjacency list. -/
def lookupEdges (edges : List (String × List String)) (k : String) : Option (List String) :=
  match edges with
  | [] => none
  | e :: rest => if e.1 = k then some e.2 else lookupEdges rest k

/-- HashMap entry(from).or_insert_with(Vec::new).push(to). -/
def insertEdge (edges : List (String × List String)) (f t : String) :
    List (String × List String) :=
  match edges with
  | [] => [(f, [t])]
  | e :: rest => if e.1 = f then (e.1, e.2 ++ [t]) :: rest else e :: insertEdge rest f t

/-- DAG::add_node: HashSet insert, total, no-op when present. -/
def DAG.add_node (g : DAG) (node_id : String) : Except DAGError DAG :=
  if node_id ∈ g.nodes then .ok g else .ok { g with nodes := g.nodes ++ [node_id] }

/-- Flattened edge pairs of an adjacency list. -/
def edgePairs (E : List (String × List String)) : List (String × String) :=
  (E.map (fun e => e.2.map (fun t => (e.1, t)))).flatten

/-- Flattened edge pairs, as exported by DAG::export_edges. -/
def DAG.pairs (g : DAG) : List (String × String) := edgePairs g.edges

/-- DAG::get_children. -/
def DAG.get_children (g : DAG) (node_id : String) : List String :=
  (lookupEdges g.edges node_id).getD []

/-- DAG::get_dependencies (reverse lookup over the adjacency list). -/
def DAG.get_dependencies (g : DAG) (node_id : String) : List String :=
  (g.edges.filter (fun e => node_id ∈ e.2)).map (fun e => e.1)

/-- DAG::export_nodes. -/
def DAG.export_nodes (g : DAG) : List String := g.nodes

/-- The strings the DFS can ever visit beyond its start: the edge targets. -/
def dfsU (g : DAG) : List String := (g.edges.map (fun e => e.2)).flatten

/-- Fuel budget for the DFS of would_create_cycle: one more than the start
node plus every edge target, which bounds the visited set and hence the
recursion depth of the source (each level adds one unvisited node). -/
def dfsFuel (g : DAG) (start : String) : Nat :=
  (start :: dfsU g).length + 1

/-- The for-neighbor loop inside has_path_dfs: early exit on a hit,
threading the visited set otherwise; the recursive DFS call is the
function argument. -/
def hasPathList (rec : String → List String → Option (Bool × List String)) :
    List String → List String → Option (Bool × List String)
  | [], visited => some (false, visited)
  | n :: ns, visited =>
    match rec n visited with
    | none => none
    | some (true, v) => some (true, v)
    | some (false, v) => hasPathList rec ns v

/-- DAG::has_path_dfs: depth-first search from current for target with an
explicit visited set. none means the fuel ran out (proved unreachable for
dfsFuel below). -/
def hasPathDfs (g : DAG) (target : String) : Nat → String → List String →
    Option (Bool × List String)
  | 0, _, _ => none
  | fuel + 1, current, visited =>
    if current = target then some (true, visited)
    else if current ∈ visited then some (false, visited)
    else hasPathList (hasPathDfs g target fuel) (g.get_children current) (current :: visited)

/-- DAG::would_create_cycle: DFS from to searching for from. The source
recursion always terminates; fuel exhaustion is mapped to false and proved
impossible for this budget. -/
def DAG.would_create_cycle (g : DAG) (f t : String) : Bool :=
  match hasPathDfs g f (dfsFuel g t) t [] with
  | some (b, _) => b
  | none => false

/-- DAG::add_edge: endpoint validation, idempotency check, cycle guard,
then insertion. -/
def DAG.add_edge (g : DAG) (f t : String) : Except DAGError DAG :=
  if f ∉ g.nodes then .error (.InvalidNode f)
  else if t ∉ g.nodes then .error (.InvalidNode t)
  else if t ∈ (lookupEdges g.edges f).getD [] then .ok g
  else if g.would_create_cycle f t then .error .CycleDetected
  else .ok { g with edges := insertEdge g.edges f t }

/-- Vec::remove at the position of the first occurrence. -/
def removeFirst (l : List String) (t : String) : List String :=
  match l with
  | [] => []
  | x :: rest => if x = t then rest else x :: removeFirst rest t

/-- DAG::remove_edge: EdgeNotFound unless the edge is present. -/
def DAG.remove_edge (g : DAG) (f t : String) : Except DAGError DAG :=
  match lookupEdges g.edges f with
  | some targets =>
    if t ∈ targets then
      .ok { g with edges := g.edges.map (fun e => if e.1 = f then (e.1, removeFirst e.2 t) else e) }
    else .error (.EdgeNotFound f t)
  | none => .error (.EdgeNotFound f t)

/-- DAG::clear_incoming_edges: drop every edge whose target is node_id. -/
def DAG.clear_incoming_edges (g : DAG) (node_id : String) : DAG :=
  { g with edges := g.edges.map (fun e => (e.1, e.2.filter (fun t => t ≠ node_id))) }

/-- In-degree of a node: how many edge pairs target it. The source builds a
HashMap keyed by the registered nodes and increments per edge; on graphs
whose edge endpoints are registered (invariant I1, the only graphs the
runtime constructs) the two agree. -/
def DAG.inDegree (g : DAG) (n : String) : Nat :=
  (g.pairs.filter (fun p => p.2 = n)).length

/-- The neighbor-decrement pass of one Kahn iteration: decrement each
neighbor's in-degree, collecting (in order) those that reach zero. -/
def decrementAll (indeg : String → Nat) (ns : List String) :
    (String → Nat) × List String :=
  match ns with
  | [] => (indeg, [])
  | m :: rest =>
    let d := indeg m - 1
    let indeg' := fun x => if x = m then d else indeg x
    let r := decrementAll indeg' rest
    (r.1, if d = 0 then m :: r.2 else r.2)

/-- The while-let loop of DAG::topological_sort (Kahn). Fuel bounds the
number of pops; nodes.length + 1 is proved sufficient below. -/
def kahnLoop (g : DAG) : Nat → List String → (String → Nat) → List String → List String
  | 0, _, _, result => result
  | _ + 1, [], _, result => result
  | fuel + 1, node :: queue, indeg, result =>
    let r := decrementAll indeg (g.get_children node)
    kahnLoop g fuel (queue ++ r.2) r.1 (result ++ [node])

/-- DAG::topological_sort: Kahn's algorithm; CycleDetected when some node
was never popped. -/
def DAG.topological_sort (g : DAG) : Except DAGError (List String) :=
  let queue := g.nodes.filter (fun n => g.inDegree n = 0)
  let result := kahnLoop g (g.nodes.length + 1) queue g.inDegree []
  if result.length ≠ g.nodes.length then .error .CycleDetected else .ok result

/-- Nonempty edge paths in a pair list. -/
inductive HasPath (E : List (String × String)) : String → String → Prop
  | single {a b : String} : (a, b) ∈ E → HasPath E a b
  | cons {a b c : String} : (a, b) ∈ E → HasPath E b c → HasPath E a c

/-- Acyclicity: no nonempty path from a node to itself. -/
def Acyclic (E : List (String × String)) : Prop := ∀ n, ¬ HasPath E n n

/-! Runtime data model (models.rs, events.rs). -/

/-- models.rs ModelVariant. -/
inductive ModelVariant
  | Fast
  | Reasoning
  | Thinking
  | Custom (s : String)
deriving DecidableEq

/-- models.rs InvocationStatus. -/
inductive InvocationStatus
  | Pending
  | Running
  | Success
  | Failed
  | Paused
deriving DecidableEq

/-- models.rs RuntimeStatus. -/
inductive RuntimeStatus
  | Idle
  | Running
  | Completed
  | Failed
  | AwaitingApproval
deriving DecidableEq

/-- serde_json::Value. Numbers are restricted to the integers, the only
numbers the kernel ever puts in a payload. -/
inductive Json
  | null
  | bool (b : Bool)
  | num (n : Int)
  | str (s : String)
  | arr (elems : List Json)
  | obj (fields : List (String × Json))

/-- Map::get on a JSON object's field list. -/
def lookupField : List (String × Json) → String → Option Json
  | [], _ => none
  | f :: rest, key => if f.1 = key then some f.2 else lookupField rest key

/-- Value::get. -/
def Json.get (j : Json) (key : String) : Option Json :=
  match j with
  | .obj fields => lookupField fields key
  | _ => none

/-- Value::as_str. -/
def Json.asStr : Json → Option String
  | .str s => some s
  | _ => none

/-- Value::as_array. -/
def Json.asArr : Json → Option (List Json)
  | .arr elems => some elems
  | _ => none

/-- Value::as_bool. -/
def Json.asBool : Json → Option Bool
  | .bool b => some b
  | _ => none

mutual
/-- Value::to_string (compact serialization). serde_json maps iterate in
key-sorted order; every object built in this development lists its keys
already sorted, matching the source's output. String escaping is not
modelled: no string used here needs an escape. -/
def Json.render : Json → String
  | .null => "null"
  | .bool true => "true"
  | .bool false => "false"
  | .num n => toString n
  | .str s => "\"" ++ s ++ "\""
  | .arr elems => "[" ++ renderArr elems ++ "]"
  | .obj fields => "\x7b" ++ renderObj fields ++ "\x7d"

/-- Comma-joined array elements. -/
def renderArr : List Json → String
  | [] => ""
  | [x] => x.render
  | x :: y :: rest => x.render ++ "," ++ renderArr (y :: rest)

/-- Comma-joined key:value pairs. -/
def renderObj : List (String × Json) → String
  | [] => ""
  | [(k, v)] => "\"" ++ k ++ "\":" ++ v.render
  | (k, v) :: f :: rest => "\"" ++ k ++ "\":" ++ v.render ++ "," ++ renderObj (f :: rest)
end

/-- events.rs EventType. -/
inductive EventType
  | NodeCreated
  | AgentStarted
  | AgentCompleted
  | AgentFailed
  | ToolCall
  | SystemIntervention
  | IntermediateLog
deriving DecidableEq

/-- The Debug formatting used by the Cortex loop: the derived Debug of a
fieldless enum variant prints the variant name. -/
def EventType.debugFmt : EventType → String
  | .NodeCreated => "NodeCreated"
  | .AgentStarted => "AgentStarted"
  | .AgentCompleted => "AgentCompleted"
  | .AgentFailed => "AgentFailed"
  | .ToolCall => "ToolCall"
  | .SystemIntervention => "SystemIntervention"
  | .IntermediateLog => "IntermediateLog"

/-- events.rs RuntimeEvent. -/
structure RuntimeEvent where
  id : String
  run_id : String
  event_type : EventType
  agent_id : Option String
  timestamp : String
  payload : Json

/-- RuntimeEvent::new; the uuid and the clock are environment inputs and
arrive as parameters. -/
def RuntimeEvent.new (uuid now : String) (run_id : String) (event_type : EventType)
    (agent_id : Option String) (payload : Json) : RuntimeEvent :=
  ⟨uuid, run_id, event_type, agent_id, now, payload⟩

/-- models.rs AgentInvocation. latency_ms is integral here (the source
stores u64, casting the response's f64). -/
structure AgentInvocation where
  id : String
  agent_id : String
  model_variant : ModelVariant
  thought_signature : Option String
  tools_used : List String
  tokens_used : Nat
  latency_ms : Nat
  status : InvocationStatus
  timestamp : String
  artifact_id : Option String
  error_message : Option String
deriving DecidableEq

/-- models.rs RuntimeState. -/
structure RuntimeState where
  run_id : String
  workflow_id : String
  status : RuntimeStatus
  active_agents : List String
  completed_agents : List String
  failed_agents : List String
  invocations : List AgentInvocation
  total_tokens_used : Nat
  start_time : String
  end_time : Option String
deriving DecidableEq

/-- models.rs AgentNodeConfig, restricted to the fields the embedded logic
reads; role, the schemas, cache_policy, position and accepts_directive are
carried by the source but never consulted by any function modelled here. -/
structure AgentNodeConfig where
  id : String
  model : ModelVariant
  tools : List String
  depends_on : List String
  prompt : String
  user_directive : String
  allow_delegation : Bool
deriving DecidableEq

/-- models.rs WorkflowConfig. -/
structure WorkflowConfig where
  id : String
  name : String
  agents : List AgentNodeConfig
  max_token_budget : Nat
  timeout_ms : Nat
  attached_files : List String
deriving DecidableEq

/-- models.rs DelegationStrategy. -/
inductive DelegationStrategy
  | Child
  | Sibling
deriving DecidableEq

/-- models.rs DelegationRequest. -/
structure DelegationRequest where
  reason : String
  new_nodes : List AgentNodeConfig
  strategy : DelegationStrategy
deriving DecidableEq

/-- models.rs RemoteAgentResponse. latency_ms is integral here. -/
structure RemoteAgentResponse where
  agent_id : String
  success : Bool
  output : Option Json
  error : Option String
  tokens_used : Nat
  thought_signature : Option String
  input_tokens : Nat
  output_tokens : Nat
  cache_hit : Bool
  latency_ms : Nat
  cached_content_id : Option String
  delegation : Option DelegationRequest

/-! Run-state operations (runtime.rs, handlers.rs). Each is the pure state
transformation of the corresponding method; Redis persistence and tracing
are I/O and not part of the state change. -/

/-- State change and event of request_approval: set AwaitingApproval and
emit a SystemIntervention (the method body runs only when the run's state
exists, which is the situation modelled). -/
def request_approval (uuid now : String) (state : RuntimeState) (agent_id : Option String)
    (reason : String) : RuntimeState × RuntimeEvent :=
  ({ state with status := RuntimeStatus.AwaitingApproval },
   RuntimeEvent.new uuid now state.run_id EventType.SystemIntervention agent_id
     (Json.obj [("action", Json.str "pause"), ("reason", Json.str reason)]))

/-- fail_run: set Failed, stamp end_time, move the agent out of active into
failed, and append a failed invocation carrying the error. -/
def fail_run (uuid now : String) (state : RuntimeState) (agent_id error : String) :
    RuntimeState :=
  { state with
    status := RuntimeStatus.Failed
    end_time := some now
    failed_agents := state.failed_agents ++ [agent_id]
    active_agents := state.active_agents.filter (fun a => a ≠ agent_id)
    invocations := state.invocations ++
      [⟨uuid, agent_id, ModelVariant.Fast, none, [], 0, 0, InvocationStatus.Failed, now, none,
        some error⟩] }

/-- set_run_status (used by the resume endpoint). -/
def set_run_status (state : RuntimeState) (status : RuntimeStatus) : RuntimeState :=
  { state with status := status }

/-- record_invocation: append the record, add its tokens, and move the
agent between the three id sets according to the record's status. -/
def record_invocation (state : RuntimeState) (invocation : AgentInvocation) : RuntimeState :=
  let s := { state with
    invocations := state.invocations ++ [invocation]
    total_tokens_used := state.total_tokens_used + invocation.tokens_used }
  match invocation.status with
  | InvocationStatus.Running =>
    if invocation.agent_id ∈ s.active_agents then s
    else { s with active_agents := s.active_agents ++ [invocation.agent_id] }
  | InvocationStatus.Success =>
    { s with active_agents := s.active_agents.filter (fun a => a ≠ invocation.agent_id)
             completed_agents := s.completed_agents ++ [invocation.agent_id] }
  | InvocationStatus.Failed =>
    { s with active_agents := s.active_agents.filter (fun a => a ≠ invocation.agent_id)
             failed_agents := s.failed_agents ++ [invocation.agent_id] }
  | _ => s

/-- Status logic of the resume_run handler: 404 when the DAG left memory,
400 unless the run is AwaitingApproval, else flip to Running (respawning
the loop and the resume event are I/O). -/
def resume_run (hasDag : Bool) (state : Option RuntimeState) : Nat × Option RuntimeState :=
  if !hasDag then (404, state)
  else if !((state.map (fun s => decide (s.status = RuntimeStatus.AwaitingApproval))).getD false)
  then (400, state)
  else (200, state.map (fun s => set_run_status s RuntimeStatus.Running))

/-- The stop_run handler: fail_run with the OPERATOR agent and the fixed
Manual Stop message, then 200. -/
def stop_run (uuid now : String) (state : RuntimeState) : RuntimeState :=
  fail_run uuid now state "OPERATOR" "Manual Stop"

/-! Persistence layer (runtime.rs persist_state / rehydrate_from_redis). -/

/-- The slice of Redis the persistence layer touches: the sys:active_runs
set and the run:{id}:state blobs (held deserialized; a blob that fails to
deserialize behaves like an absent one and is modelled as absent). -/
structure KvStore where
  active_runs : List String
  states : List (String × RuntimeState)
deriving DecidableEq

/-- Assoc lookup on the persisted states. -/
def lookupState : List (String × RuntimeState) → String → Option RuntimeState
  | [], _ => none
  | e :: rest, key => if e.1 = key then some e.2 else lookupState rest key

/-- Key-unique insert-or-replace on the persisted states. -/
def upsertState (states : List (String × RuntimeState)) (key : String) (st : RuntimeState) :
    List (String × RuntimeState) :=
  match states with
  | [] => [(key, st)]
  | e :: rest => if e.1 = key then (key, st) :: rest else e :: upsertState rest key st

/-- persist_state: write the state blob, then srem from sys:active_runs on
terminal status (the 24h expiry is a TTL, not modelled) or sadd otherwise. -/
def persist_state (kv : KvStore) (run_id : String) (state : Option RuntimeState) : KvStore :=
  match state with
  | none => kv
  | some st =>
    let kv' := { kv with states := upsertState kv.states run_id st }
    if st.status = RuntimeStatus.Completed ∨ st.status = RuntimeStatus.Failed then
      { kv' with active_runs := kv'.active_runs.filter (fun r => r ≠ run_id) }
    else if run_id ∈ kv'.active_runs then kv'
    else { kv' with active_runs := kv'.active_runs ++ [run_id] }

/-- The crash-recovery rewrite applied to each loaded state: a Running
state becomes Failed and gains the synthetic KERNEL invocation; every
other status is restored as-is. -/
def rehydrateState (uuid now : String) (state : RuntimeState) : RuntimeState :=
  if state.status = RuntimeStatus.Running then
    { state with
      status := RuntimeStatus.Failed
      invocations := state.invocations ++
        [⟨uuid, "KERNEL", ModelVariant.Fast, none, [], 0, 0, InvocationStatus.Failed, now, none,
          some "Kernel restarted unexpectedly. Workflow terminated."⟩] }
  else state

/-- rehydrate_from_redis: read sys:active_runs, load each member's blob,
apply the crash-recovery rewrite, and insert into the in-memory map. The
function only reads from Redis; the store comes back unchanged. -/
def rehydrate_from_redis (uuid now : String) (kv : KvStore) :
    List (String × RuntimeState) × KvStore :=
  (kv.active_runs.filterMap
    (fun rid => (lookupState kv.states rid).map (fun s => (rid, rehydrateState uuid now s))),
   kv)

/-! Pattern engine (registry.rs, main.rs). -/

/-- registry.rs PatternAction. -/
inductive PatternAction
  | Interrupt (reason : String)
  | RequestApproval (reason : String)
  | SpawnAgent (config : AgentNodeConfig)
deriving DecidableEq

/-- registry.rs Pattern. -/
structure Pattern where
  id : String
  name : String
  trigger_event : String
  condition : String
  action : PatternAction
deriving DecidableEq

/-- str::contains of Rust: substring containment. -/
def strContains (hay needle : String) : Bool := decide (needle.data <:+: hay.data)

/-- Character-list prefix test. -/
def charsPrefixOf : List Char → List Char → Bool
  | [], _ => true
  | _ :: _, [] => false
  | c :: cs, d :: ds => c = d && charsPrefixOf cs ds

/-- str::starts_with of Rust, on the character data (the byte-position
String.startsWith of the library does not reduce in the kernel). -/
def strStartsWith (s p : String) : Bool := charsPrefixOf p.data s.data

/-- PatternRegistry::get_patterns_for_trigger: equality or loose
containment of the trigger inside the formatted event type. The DashMap
iteration order is unspecified; the registry is a list here. -/
def get_patterns_for_trigger (patterns : List Pattern) (event_type : String) : List Pattern :=
  patterns.filter
    (fun p => decide (p.trigger_event = event_type) || strContains event_type p.trigger_event)

/-- One iteration of the Cortex loop in main.rs: select patterns by
trigger, evaluate each condition against the serialized payload (with *
matching everything), and execute every hit in turn — the for-loop has no
early exit. Returns the actions reached, in order. -/
def cortexProcessEvent (patterns : List Pattern) (event : RuntimeEvent) : List PatternAction :=
  (get_patterns_for_trigger patterns event.event_type.debugFmt).filterMap
    (fun pattern =>
      if pattern.condition = "*" || strContains event.payload.render pattern.condition then
        some pattern.action
      else none)

/-! Post-flight signal analysis and circuit breaker (runtime.rs 519-699). -/

/-- Display rendering of DAGError (thiserror messages), used where the
source converts a graph error to a string. -/
def DAGError.toMessage : DAGError → String
  | .CycleDetected => "Cycle detected in DAG"
  | .InvalidNode s => "Invalid node: " ++ s
  | .DependencyNotFound s => "Dependency not found: " ++ s
  | .EdgeNotFound a b => "Edge not found: " ++ a ++ " -> " ++ b

/-- ASCII apostrophe, spelled via its code point. -/
def apos : String := (Char.ofNat 39).toString

/-- Protocol-violation message for research agents. -/
def violationResearchMsg : String :=
  "Protocol Violation: " ++ apos ++ "research_" ++ apos ++
    " agent did not use web_search (Hallucination Risk)."

/-- Protocol-violation message for analyze/coder agents. -/
def violationAnalyzeMsg : String :=
  "Protocol Violation: " ++ apos ++ "analyze_" ++ apos ++ "/" ++ apos ++ "coder_" ++ apos ++
    " agent did not use execute_python (Integrity Risk)."

/-- Tool-trace marker for execute_python. -/
def toolPythonMarker : String := "Tool " ++ apos ++ "execute_python" ++ apos ++ " Result"

/-- Tool-trace marker for web_search. -/
def toolSearchMarker : String := "Tool " ++ apos ++ "web_search" ++ apos ++ " Result"

/-- Semantic-null pause reason. -/
def semanticNullMsg (agent_id : String) : String :=
  "Agent " ++ apos ++ agent_id ++ apos ++ " reported a Semantic Null (found no data)."

/-- Context-drought halt message of prepare_invocation_payload. -/
def droughtMsg (agent_id : String) : String :=
  "Pre-Execution Halt: Agent " ++ apos ++ agent_id ++ apos ++
    " is facing a Context Drought. Upstream nodes provided no usable data."

/-- The response text the post-flight validator examines:
output.result as a string, else the empty string. -/
def responseText (res : RemoteAgentResponse) : String :=
  ((res.output.bind (fun o => o.get "result")).bind Json.asStr).getD ""

/-- Semantic-null signal. -/
def is_semantic_null (text : String) : Bool := strContains text "[STATUS: NULL]"

/-- Bypass signal. -/
def is_bypassed (text : String) : Bool := strContains text "[BYPASS:"

/-- Tool evidence for execute_python. -/
def used_python (text : String) : Bool :=
  strContains text "execute_python" || strContains text toolPythonMarker

/-- Tool evidence for web_search. -/
def used_search (text : String) : Bool :=
  strContains text "web_search" || strContains text toolSearchMarker

/-- Protocol validation (runtime.rs 536-544): unless bypassed, a
research_ id must show web_search evidence and an analyze_/coder_ id must
show execute_python evidence. -/
def protocol_violation (agent_id text : String) : Option String :=
  if !(is_bypassed text) then
    if strStartsWith agent_id "research_" && !(used_search text) then some violationResearchMsg
    else if (strStartsWith agent_id "analyze_" || strStartsWith agent_id "coder_") &&
        !(used_python text) then some violationAnalyzeMsg
    else none
  else none

/-- The happy-path guard of the circuit-breaker decision: success and no
semantic null and no protocol violation. -/
def happy_path (agent_id : String) (res : RemoteAgentResponse) : Bool :=
  let text := responseText res
  res.success && !(is_semantic_null text) && (protocol_violation agent_id text).isNone

/-- The circuit-breaker pause reason (runtime.rs 673-679). -/
def pause_reason (agent_id : String) (res : RemoteAgentResponse) : String :=
  let text := responseText res
  if is_semantic_null text then semanticNullMsg agent_id
  else
    match protocol_violation agent_id text with
    | some violation => violation
    | none => res.error.getD "Unknown Execution Error"

/-- The circuit-breaker arm (runtime.rs 672-698): pause the run via
request_approval, emit AgentFailed carrying the reason, and break the
loop. Returns the new state, the emitted events in order, and the break
flag. -/
def apply_circuit_breaker (uuidA nowA uuidB nowB : String) (state : RuntimeState)
    (agent_id : String) (res : RemoteAgentResponse) :
    RuntimeState × List RuntimeEvent × Bool :=
  let reason := pause_reason agent_id res
  let r := request_approval uuidA nowA state (some agent_id) reason
  let ev2 := RuntimeEvent.new uuidB nowB state.run_id EventType.AgentFailed (some agent_id)
    (Json.obj [("error", Json.str reason),
               ("recovery_hint", Json.str "Check Prompt or Data Sources")])
  (r.1, [r.2, ev2], true)

/-- Result evaluation of a successful RPC viewed as the control decision of
one scheduler iteration: the happy path keeps looping, anything else fires
the circuit breaker and breaks. The happy path's bookkeeping (delegation,
artifact and signature storage, invocation record) is modelled separately
by the functions a claim consults. -/
def scheduler_result_decision (uuidA nowA uuidB nowB : String) (state : RuntimeState)
    (agent_id : String) (res : RemoteAgentResponse) :
    RuntimeState × List RuntimeEvent × Bool :=
  if happy_path agent_id res then (state, [], false)
  else apply_circuit_breaker uuidA nowA uuidB nowB state agent_id res

/-! Context assembler (runtime.rs prepare_invocation_payload and
generate_graph_context). -/

/-- Generic assoc-list lookup (HashMap::get). -/
def assocLookup {β : Type} : List (String × β) → String → Option β
  | [], _ => none
  | e :: rest, key => if e.1 = key then some e.2 else assocLookup rest key

/-- runtime.rs InvocationPayload. -/
structure InvocationPayload where
  run_id : String
  agent_id : String
  model : String
  prompt : String
  user_directive : String
  input_data : Json
  parent_signature : Option String
  cached_content_id : Option String
  thinking_level : Option Int
  file_paths : List String
  tools : List String
  allow_delegation : Bool
  graph_view : String

/-- The per-run slices of the runtime's maps consulted while assembling a
payload. artifacts maps a dependency id to the parsed JSON stored at
run:run_id:agent:dep:output; an absent or unparseable blob (both skipped
by the source) is none. redisAvailable mirrors the optional Redis client:
when false the whole context fetch is skipped. -/
structure RuntimeCtx where
  state : RuntimeState
  workflow : WorkflowConfig
  dag : DAG
  signatures : List (String × String)
  cache : Option String
  artifacts : String → Option Json
  redisAvailable : Bool

/-- Whitespace test of str::trim (the ASCII whitespace occurring in the
modelled inputs; the library String.trim does not reduce in the kernel). -/
def isWsChar (c : Char) : Bool := c = ' ' || c = '\t' || c = '\n' || c = '\r'

/-- Drop leading whitespace characters. -/
def dropWhileWs : List Char → List Char
  | [] => []
  | c :: cs => if isWsChar c then dropWhileWs cs else c :: cs

/-- str::trim, on character data. -/
def strTrim (s : String) : String :=
  ⟨(dropWhileWs (dropWhileWs s.data.reverse).reverse)⟩

/-- Accumulator of the context fetch loop: the prompt appendix, the
input_data fields, and the dynamic file mounts. -/
structure CtxAccum where
  appendix : String
  input_data : List (String × Json)
  mounts : List String

/-- The files_generated mount loop: session-scoped output path per
filename, deduplicated. -/
def addMounts (run_id : String) : List String → List Json → List String
  | mounts, [] => mounts
  | mounts, file :: rest =>
    match file.asStr with
    | none => addMounts run_id mounts rest
    | some filename =>
      let mount_path := "/app/storage/sessions/" ++ run_id ++ "/output/" ++ filename
      addMounts run_id (if mount_path ∈ mounts then mounts else mounts ++ [mount_path]) rest

/-- The per-dependency context fetch loop (runtime.rs 1147-1175): store
the parsed artifact under the dependency's key, append the human-readable
context block (result or output string, else No text output), and collect
the declared file mounts. -/
def fetchParentContext (run_id : String) (artifacts : String → Option Json) :
    List String → CtxAccum → CtxAccum
  | [], acc => acc
  | parent_id :: rest, acc =>
    match artifacts parent_id with
    | none => fetchParentContext run_id artifacts rest acc
    | some val =>
      let content := (((val.get "result").bind Json.asStr).orElse
        (fun _ => (val.get "output").bind Json.asStr)).getD "No text output"
      let acc1 : CtxAccum :=
        { appendix := acc.appendix ++ "\n\n=== CONTEXT FROM AGENT " ++ parent_id ++ " ===\n" ++
            content ++ "\n"
          input_data := acc.input_data ++ [(parent_id, val)]
          mounts := acc.mounts }
      let acc2 :=
        match (val.get "files_generated").bind Json.asArr with
        | none => acc1
        | some files => { acc1 with mounts := addMounts run_id acc1.mounts files }
      fetchParentContext run_id artifacts rest acc2

/-- Prompt excerpt of generate_graph_context: the first 50 chars of the
node's configured prompt. -/
def get_node_info (workflow : WorkflowConfig) (node_id : String) : String :=
  match workflow.agents.find? (fun a => decide (a.id = node_id)) with
  | some agent => agent.prompt.take 50
  | none => "Unknown Specialty"

/-- Node status tag of the detailed graph view. -/
def nodeStatusLower (state : RuntimeState) (node_id : String) : String :=
  if node_id ∈ state.completed_agents then "completed"
  else if node_id ∈ state.failed_agents then "failed"
  else if node_id ∈ state.active_agents then "running"
  else "pending"

/-- Node status tag of the compact graph view. -/
def nodeStatusUpper (state : RuntimeState) (node_id : String) : String :=
  if node_id ∈ state.completed_agents then "COMPLETE"
  else if node_id ∈ state.failed_agents then "FAILED"
  else if node_id ∈ state.active_agents then "RUNNING"
  else "PENDING"

/-- generate_graph_context, for a run whose state and graph are present
(the source returns fixed unavailability strings otherwise). The detailed
branch serializes with to_string_pretty; the compact rendering used here
differs from it only in whitespace, which nothing downstream inspects. -/
def generate_graph_context (ctx : RuntimeCtx) (current_agent_id : String) (detailed : Bool) :
    String :=
  if detailed then
    Json.render (Json.arr (ctx.dag.export_nodes.map (fun node_id =>
      let status := nodeStatusLower ctx.state node_id
      let specialty := if status = "pending" then get_node_info ctx.workflow node_id else ""
      Json.obj
        [("dependencies", Json.arr ((ctx.dag.get_dependencies node_id).map Json.str)),
         ("id", Json.str node_id),
         ("is_you", Json.bool (decide (node_id = current_agent_id))),
         ("specialty_preview", Json.str specialty),
         ("status", Json.str status)])))
  else
    match ctx.dag.topological_sort with
    | .ok order =>
      String.intercalate " -> " (order.map (fun node_id =>
        let status := nodeStatusUpper ctx.state node_id
        if node_id = current_agent_id then "[" ++ node_id ++ ":" ++ status ++ "(YOU)]"
        else if status = "PENDING" then
          "[" ++ node_id ++ ":" ++ status ++ " (" ++ get_node_info ctx.workflow node_id ++ ")]"
        else "[" ++ node_id ++ ":" ++ status ++ "]"))
    | .error _ => "Cycle detected in graph view."

/-- push-if-absent on a tool list. -/
def pushIfAbsent (l : List String) (t : String) : List String := if t ∈ l then l else l ++ [t]

/-- Identity-merge tool provisioning (runtime.rs 1233-1285): declared
tools, the universal baseline, identity grants keyed on id substrings, and
the dynamic-artifact python grant; additive only. -/
def provisionTools (agent_config : AgentNodeConfig) (agent_id : String)
    (has_dynamic_artifacts : Bool) : List String :=
  let tools := agent_config.tools
  let tools := pushIfAbsent tools "read_file"
  let tools := pushIfAbsent tools "list_files"
  let id_lower := agent_id.toLower
  let tools :=
    if strContains id_lower "research" || strStartsWith id_lower "web_" then
      pushIfAbsent tools "web_search"
    else tools
  let tools :=
    if strContains id_lower "analy" || strContains id_lower "code" ||
        strContains id_lower "math" then
      pushIfAbsent tools "execute_python"
    else tools
  let tools :=
    if strContains id_lower "code" || strContains id_lower "writ" then
      pushIfAbsent tools "write_file"
    else tools
  let tools :=
    if strStartsWith id_lower "master_" || strStartsWith id_lower "orchestrator" then
      pushIfAbsent (pushIfAbsent (pushIfAbsent tools "web_search") "execute_python") "write_file"
    else tools
  if has_dynamic_artifacts then pushIfAbsent tools "execute_python" else tools

/-- prepare_invocation_payload (runtime.rs 1109-1308): signature lookup,
artifact fetch, the drought pre-check (which pauses the run and aborts
with an error), prompt composition, tier mapping, file mounts, tool
provisioning and the graph view. Returns the result together with the
(possibly paused) state and the emitted events. -/
def prepare_invocation_payload (uuid now : String) (ctx : RuntimeCtx)
    (run_id agent_id : String) :
    Except String InvocationPayload × RuntimeState × List RuntimeEvent :=
  match ctx.workflow.agents.find? (fun a => decide (a.id = agent_id)) with
  | none => (.error ("Agent " ++ agent_id ++ " not found"), ctx.state, [])
  | some agent_config =>
    let parent_signature :=
      if !agent_config.depends_on.isEmpty then
        agent_config.depends_on.findSome? (fun parent_id => assocLookup ctx.signatures parent_id)
      else none
    let acc : CtxAccum :=
      if !agent_config.depends_on.isEmpty && ctx.redisAvailable then
        fetchParentContext run_id ctx.artifacts agent_config.depends_on ⟨"", [], []⟩
      else ⟨"", [], []⟩
    let has_null_signal := strContains acc.appendix "[STATUS: NULL]"
    let has_files := !acc.mounts.isEmpty
    let is_root_node := agent_config.depends_on.isEmpty
    if !is_root_node && ((strTrim acc.appendix).isEmpty || (has_null_signal && !has_files)) then
      let r := request_approval uuid now ctx.state (some agent_id) (droughtMsg agent_id)
      (.error "Halted: Contextual Data Drought", r.1, [r.2])
    else
      let final_prompt :=
        if !acc.appendix.isEmpty then agent_config.prompt ++ acc.appendix else agent_config.prompt
      let model_string :=
        match agent_config.model with
        | ModelVariant.Fast => "fast"
        | ModelVariant.Reasoning => "reasoning"
        | ModelVariant.Thinking => "thinking"
        | ModelVariant.Custom s => s
      let thinking_level : Option Int :=
        if agent_config.model = ModelVariant.Thinking then some 5 else none
      let base_paths := ctx.workflow.attached_files.map
        (fun f => "/app/storage/sessions/" ++ run_id ++ "/input/" ++ f)
      let has_dynamic_artifacts := !acc.mounts.isEmpty
      let full_file_paths := if has_dynamic_artifacts then base_paths ++ acc.mounts else base_paths
      let tools := provisionTools agent_config agent_id has_dynamic_artifacts
      let graph_view := generate_graph_context ctx agent_id agent_config.allow_delegation
      (.ok
        { run_id := run_id
          agent_id := agent_id
          model := model_string
          prompt := final_prompt
          user_directive := agent_config.user_directive
          input_data := Json.obj acc.input_data
          parent_signature := parent_signature
          cached_content_id := ctx.cache
          thinking_level := thinking_level
          file_paths := full_file_paths
          tools := tools
          allow_delegation := agent_config.allow_delegation
          graph_view := graph_view },
       ctx.state, [])

/-- The scheduler's payload-assembly step for a selected node (runtime.rs
508-514): assemble; on any error, fail_run with that error and continue
the loop (remote cleanup is I/O). -/
def scheduler_payload_phase (uuidP nowP uuidF nowF : String) (ctx : RuntimeCtx)
    (run_id agent_id : String) :
    RuntimeState × List RuntimeEvent × Option InvocationPayload :=
  match prepare_invocation_payload uuidP nowP ctx run_id agent_id with
  | (Except.ok payload, st, evs) => (st, evs, some payload)
  | (Except.error e, st, evs) => (fail_run uuidF nowF st agent_id e, evs, none)

/-! Delegation splicing (runtime.rs handle_delegation) and workflow
validation (runtime.rs start_workflow). -/

/-- Pending test of the collision handling: in none of the three id sets. -/
def isPendingNode (state : RuntimeState) (node_id : String) : Bool :=
  decide (node_id ∉ state.active_agents) && decide (node_id ∉ state.completed_agents) &&
    decide (node_id ∉ state.failed_agents)

/-- Remove the first workflow agent carrying the given id (Vec::remove at
the found position). -/
def removeAgent (agents : List AgentNodeConfig) (node_id : String) : List AgentNodeConfig :=
  match agents with
  | [] => []
  | a :: rest => if a.id = node_id then rest else a :: removeAgent rest node_id

/-- HashMap::insert on the id substitution map. -/
def upsertId (m : List (String × String)) (k v : String) : List (String × String) :=
  match m with
  | [] => [(k, v)]
  | e :: rest => if e.1 = k then (k, v) :: rest else e :: upsertId rest k v

/-- Accumulator of the collision-resolution loop: the (possibly renamed)
incoming nodes, the id substitution map, and the workflow and graph as
mutated by pending-node adoption. -/
structure CollisionAcc where
  new_nodes : List AgentNodeConfig
  id_map : List (String × String)
  workflow : WorkflowConfig
  dag : DAG

/-- The collision-resolution loop of handle_delegation (runtime.rs
734-772): adopt a pending node (drop its old config and clear its incoming
edges) or rename a started one through fresh, recording the substitution. -/
def resolveCollisions (fresh : String → String) (state : RuntimeState)
    (existing_node_ids : List String) : List AgentNodeConfig → CollisionAcc → CollisionAcc
  | [], acc => acc
  | node :: rest, acc =>
    if node.id ∈ existing_node_ids then
      if isPendingNode state node.id then
        resolveCollisions fresh state existing_node_ids rest
          { acc with
            new_nodes := acc.new_nodes ++ [node]
            workflow := { acc.workflow with agents := removeAgent acc.workflow.agents node.id }
            dag := acc.dag.clear_incoming_edges node.id }
      else
        let new_id := fresh node.id
        resolveCollisions fresh state existing_node_ids rest
          { acc with
            new_nodes := acc.new_nodes ++ [{ node with id := new_id }]
            id_map := upsertId acc.id_map node.id new_id }
    else
      resolveCollisions fresh state existing_node_ids rest
        { acc with new_nodes := acc.new_nodes ++ [node] }

/-- Rewrite the new nodes' dependency lists through the substitution map
(runtime.rs 775-780). -/
def applyIdMap (id_map : List (String × String)) (nodes : List AgentNodeConfig) :
    List AgentNodeConfig :=
  nodes.map (fun node =>
    { node with depends_on := node.depends_on.map (fun dep => (assocLookup id_map dep).getD dep) })

/-- Push each new node id not already present (the inner loop of the
dependent rewrite). -/
def pushNewDeps (deps : List String) : List AgentNodeConfig → List String
  | [] => deps
  | n :: rest => pushNewDeps (if n.id ∈ deps then deps else deps ++ [n.id]) rest

/-- Rewrite one existing dependent's depends_on: drop the parent, push the
new node ids (iter_mut().find touches the first match only). -/
def rewriteOneDependent (agents : List AgentNodeConfig) (dep_id parent_id : String)
    (req_nodes : List AgentNodeConfig) : List AgentNodeConfig :=
  match agents with
  | [] => []
  | a :: rest =>
    if a.id = dep_id then
      { a with depends_on := pushNewDeps (a.depends_on.filter (fun p => p ≠ parent_id)) req_nodes }
        :: rest
    else a :: rewriteOneDependent rest dep_id parent_id req_nodes

/-- The dependent-rewrite loop over every existing dependent. -/
def rewriteDependents (agents : List AgentNodeConfig) (parent_id : String)
    (req_nodes : List AgentNodeConfig) : List String → List AgentNodeConfig
  | [] => agents
  | dep_id :: rest =>
    rewriteDependents (rewriteOneDependent agents dep_id parent_id req_nodes) parent_id req_nodes
      rest

/-- Step 3 of handle_delegation (runtime.rs 783-803): append the new
configs; under Child rewrite each existing dependent's depends_on. -/
def spliceWorkflow (workflow : WorkflowConfig) (parent_id : String)
    (existing_dependents : List String) (req_nodes : List AgentNodeConfig)
    (strategy : DelegationStrategy) : WorkflowConfig :=
  let workflow := { workflow with agents := workflow.agents ++ req_nodes }
  if strategy = DelegationStrategy.Child then
    { workflow with
      agents := rewriteDependents workflow.agents parent_id req_nodes existing_dependents }
  else workflow

/-- Keep the graph on an ignored mutation error (the source logs and
continues; a failed add_edge or remove_edge leaves the graph untouched). -/
def orKeep (g : DAG) (r : Except DAGError DAG) : DAG :=
  match r with
  | .ok g' => g'
  | .error _ => g

/-- The declared-dependency edge loop (failures logged and ignored). -/
def addDeclaredEdges : DAG → String → List String → DAG
  | dag, _, [] => dag
  | dag, node_id, dep :: rest => addDeclaredEdges (orKeep dag (dag.add_edge dep node_id)) node_id rest

/-- Wire a new node to every existing dependent (Child strategy; a failure
aborts the delegation). -/
def connectToDependents : DAG → String → List String → Except String DAG
  | dag, _, [] => .ok dag
  | dag, node_id, dep :: rest =>
    match dag.add_edge node_id dep with
    | .error e => .error e.toMessage
    | .ok dag' => connectToDependents dag' node_id rest

/-- Step 4 per-node graph mutation (runtime.rs 808-841): register the
node, add its declared dependency edges (ignored failures), force the
parent link for a rootless or parent-declaring node (ignored failure), and
under Child wire the node to every existing dependent. -/
def spliceNodeIntoDag (dag : DAG) (parent_id : String) (existing_dependents : List String)
    (strategy : DelegationStrategy) (node : AgentNodeConfig) : Except String DAG :=
  match (dag.add_node node.id).mapError DAGError.toMessage with
  | .error e => .error e
  | .ok dag =>
    let dag := addDeclaredEdges dag node.id node.depends_on
    let dag :=
      if node.depends_on.isEmpty || decide (parent_id ∈ node.depends_on) then
        orKeep dag (dag.add_edge parent_id node.id)
      else dag
    if strategy = DelegationStrategy.Child then connectToDependents dag node.id existing_dependents
    else .ok dag

/-- The node loop of step 4. -/
def spliceAllNodes : DAG → String → List String → DelegationStrategy → List AgentNodeConfig →
    Except String DAG
  | dag, _, _, _, [] => .ok dag
  | dag, parent_id, deps, strategy, node :: rest =>
    match spliceNodeIntoDag dag parent_id deps strategy node with
    | .error e => .error e
    | .ok dag' => spliceAllNodes dag' parent_id deps strategy rest

/-- Step 4C: drop the old parent → dependent edges (ignored failures). -/
def removeParentEdges : DAG → String → List String → DAG
  | dag, _, [] => dag
  | dag, parent_id, dep :: rest =>
    removeParentEdges (orKeep dag (dag.remove_edge parent_id dep)) parent_id rest

/-- handle_delegation (runtime.rs 716-860), for a run whose state,
workflow and graph are present: prefetch the parent's dependents and the
node ids, resolve id collisions (fresh supplies the uuid-suffixed rename),
rewrite dependencies through the substitution, splice the workflow config,
splice the graph and validate with a topological sort. -/
def handle_delegation (fresh : String → String) (state : RuntimeState)
    (workflow : WorkflowConfig) (dag : DAG) (parent_id : String) (req : DelegationRequest) :
    Except String (WorkflowConfig × DAG) :=
  let existing_dependents := dag.get_children parent_id
  let existing_node_ids := dag.export_nodes
  let acc := resolveCollisions fresh state existing_node_ids req.new_nodes ⟨[], [], workflow, dag⟩
  let req_nodes := applyIdMap acc.id_map acc.new_nodes
  let workflow1 := spliceWorkflow acc.workflow parent_id existing_dependents req_nodes req.strategy
  match spliceAllNodes acc.dag parent_id existing_dependents req.strategy req_nodes with
  | .error e => .error e
  | .ok dag1 =>
    let dag2 :=
      if req.strategy = DelegationStrategy.Child then
        removeParentEdges dag1 parent_id existing_dependents
      else dag1
    match dag2.topological_sort with
    | .error _ => .error "Delegation created a cycle in DAG"
    | .ok _ => .ok (workflow1, dag2)

/-- The node-registration loop of start_workflow. -/
def addAllNodes : DAG → List AgentNodeConfig → Except String DAG
  | dag, [] => .ok dag
  | dag, agent :: rest =>
    match dag.add_node agent.id with
    | .error e => .error ("Failed to add node: " ++ e.toMessage)
    | .ok dag' => addAllNodes dag' rest

/-- The dependency-edge loop of start_workflow for one agent. -/
def addAgentEdges : DAG → String → List String → Except String DAG
  | dag, _, [] => .ok dag
  | dag, agent_id, dep :: rest =>
    match dag.add_edge dep agent_id with
    | .error e => .error ("Failed to add edge: " ++ e.toMessage)
    | .ok dag' => addAgentEdges dag' agent_id rest

/-- The dependency-edge loop of start_workflow over every agent. -/
def addAllDepEdges : DAG → List AgentNodeConfig → Except String DAG
  | dag, [] => .ok dag
  | dag, agent :: rest =>
    match addAgentEdges dag agent.id agent.depends_on with
    | .error e => .error e
    | .ok dag' => addAllDepEdges dag' rest

/-- The validation part of start_workflow (runtime.rs 248-270): register
every agent id, add an edge per declared dependency, and verify a
topological order; the session workspace, the fresh run state and the
spawned scheduler task are I/O past this point. -/
def start_workflow_validate (config : WorkflowConfig) : Except String DAG :=
  match addAllNodes DAG.new config.agents with
  | .error e => .error e
  | .ok dag =>
    match addAllDepEdges dag config.agents with
    | .error e => .error e
    | .ok dag' =>
      match dag'.topological_sort with
      | .error e => .error ("Invalid workflow: " ++ e.toMessage)
      | .ok _ => .ok dag'

/-! Graph invariants and reachability by the DAG operations. -/

/-- The well-formedness pack every runtime-constructed graph maintains:
duplicate-free node list, key-unique adjacency, duplicate-free edge pairs,
registered endpoints (spec invariant I1) and acyclicity (I2). -/
structure DAGInv (g : DAG) : Prop where
  nodesNodup : g.nodes.Nodup
  keysNodup : (g.edges.map (fun e => e.1)).Nodup
  pairsNodup : g.pairs.Nodup
  srcMem : ∀ p ∈ g.pairs, p.1 ∈ g.nodes
  tgtMem : ∀ p ∈ g.pairs, p.2 ∈ g.nodes
  acyclic : Acyclic g.pairs

/-- Graphs reachable from DAG::new by any sequence of the mutating
operations (an errored operation leaves the graph unchanged, so only the
successful outcomes appear). -/
inductive Reachable : DAG → Prop
  | new : Reachable DAG.new
  | add_node {g g' : DAG} {n : String} :
      Reachable g → g.add_node n = .ok g' → Reachable g'
  | add_edge {g g' : DAG} {u v : String} :
      Reachable g → g.add_edge u v = .ok g' → Reachable g'
  | remove_edge {g g' : DAG} {u v : String} :
      Reachable g → g.remove_edge u v = .ok g' → Reachable g'
  | clear_incoming {g : DAG} {n : String} :
      Reachable g → Reachable (g.clear_incoming_edges n)

/-! Concrete scenarios consulted by the verification theorems. -/

/-- Agent A of the delegation scenario (spec scenario 3): delegating root. -/
def wfA : AgentNodeConfig := ⟨"A", ModelVariant.Fast, [], [], "prompt A", "", true⟩

/-- Agent B of the delegation scenario: depends on A. -/
def wfB : AgentNodeConfig := ⟨"B", ModelVariant.Fast, [], ["A"], "prompt B", "", false⟩

/-- Delegated node X. -/
def nodeX : AgentNodeConfig := ⟨"X", ModelVariant.Fast, [], [], "prompt X", "", false⟩

/-- Delegated node Y, depending on X. -/
def nodeY : AgentNodeConfig := ⟨"Y", ModelVariant.Fast, [], ["X"], "prompt Y", "", false⟩

/-- The A/B workflow. -/
def wfC1 : WorkflowConfig := ⟨"wf1", "w", [wfA, wfB], 1000, 1000, []⟩

/-- The A/B graph after A completed. -/
def dagC1 : DAG := ⟨["A", "B"], [("A", ["B"])]⟩

/-- Run state with A completed. -/
def stC1 : RuntimeState :=
  ⟨"r1", "wf1", RuntimeStatus.Running, [], ["A"], [], [], 0, "t0", none⟩

/-- The Child-strategy delegation request carrying X and Y. -/
def reqC1 : DelegationRequest := ⟨"split the work", [nodeX, nodeY], DelegationStrategy.Child⟩

/-- Rename supply for the scenario (never consulted: no id collides). -/
def freshC1 : String → String := fun s => s ++ "_u1a2b3c4"

/-- The delegation outcome of the scenario. -/
def delegC1 : Option (WorkflowConfig × DAG) :=
  (handle_delegation freshC1 stC1 wfC1 dagC1 "A" reqC1).toOption

/-- B's dependency list after the splice. -/
def delegC1Bdeps : Option (Option (List String)) :=
  delegC1.map (fun r => (r.1.agents.find? (fun a => decide (a.id = "B"))).map
    (fun a => a.depends_on))

/-- Drought scenario (spec scenario 4): root node. -/
def rootCfg : AgentNodeConfig := ⟨"root", ModelVariant.Fast, [], [], "prompt root", "", false⟩

/-- Drought scenario: child depending on root. -/
def childCfg : AgentNodeConfig :=
  ⟨"child", ModelVariant.Fast, [], ["root"], "prompt child", "", false⟩

/-- The root/child workflow. -/
def wfC2 : WorkflowConfig := ⟨"wf2", "w2", [rootCfg, childCfg], 1000, 1000, []⟩

/-- The root/child graph. -/
def dagC2 : DAG := ⟨["root", "child"], [("root", ["child"])]⟩

/-- Run state with root completed. -/
def stC2 : RuntimeState :=
  ⟨"r2", "wf2", RuntimeStatus.Running, [], ["root"], [], [], 0, "t0", none⟩

/-- Root's stored artifact: a semantic-null result and no files. -/
def artC2 : String → Option Json :=
  fun d => if d = "root" then some (Json.obj [("result", Json.str "[STATUS: NULL]")]) else none

/-- The run context when assembling child's payload. -/
def ctxC2 : RuntimeCtx := ⟨stC2, wfC2, dagC2, [], none, artC2, true⟩

/-- Protocol-violation scenario (spec scenario 5): run state mid-flight. -/
def stC6 : RuntimeState :=
  ⟨"r6", "wf6", RuntimeStatus.Running, ["research_q1"], [], [], [], 0, "t0", none⟩

/-- A successful research response with no web_search evidence and no
bypass marker. -/
def resC6 : RemoteAgentResponse :=
  ⟨"research_q1", true, some (Json.obj [("result", Json.str "Summary written from memory.")]),
   none, 5, none, 1, 1, false, 10, none, none⟩

/-- A completed (terminal) run state. -/
def stDoneC4 : RuntimeState :=
  ⟨"r4", "wf4", RuntimeStatus.Completed, [], ["a1"], [], [], 0, "t0", some "t1"⟩

/-- A concrete invocation record. -/
def invC4 : AgentInvocation :=
  ⟨"i1", "a2", ModelVariant.Fast, none, [], 7, 3, InvocationStatus.Success, "t2", none, none⟩

/-- Pattern hitting AgentFailed with the catch-all condition. -/
def patC5a : Pattern := ⟨"p1", "gate retries", "AgentFailed", "*", PatternAction.Interrupt "halt"⟩

/-- Pattern whose trigger is a proper substring of AgentFailed. -/
def patC5b : Pattern :=
  ⟨"p2", "watch agents", "Agent", "error", PatternAction.RequestApproval "check"⟩

/-- An AgentFailed event whose payload mentions an error. -/
def evC5 : RuntimeEvent :=
  ⟨"e1", "r5", EventType.AgentFailed, some "a1", "t0", Json.obj [("error", Json.str "boom")]⟩

/-- Pattern with the bare trigger Agent. -/
def patC9 : Pattern := ⟨"p9", "agent watcher", "Agent", "*", PatternAction.Interrupt "stop"⟩

/-- A state persisted as running (crash scenario, spec scenario 6). -/
def stRunC3 : RuntimeState :=
  ⟨"r3", "wf3", RuntimeStatus.Running, ["a1"], [], [], [], 0, "t0", none⟩

/-- The durable store before reboot: r3 active and running. -/
def kvC3 : KvStore := ⟨["r3"], [("r3", stRunC3)]⟩

/-- Concrete two-node graph a → b used to witness the sort theorem. -/
def gC7 : DAG := ⟨["a", "b"], [("a", ["b"])]⟩

/-- Concrete two-node graph a → b used to witness the cycle-guard theorem. -/
def gC8 : DAG := ⟨["a", "b"], [("a", ["b"])]⟩

/-- A concrete agent config reused (twice, same id) by the duplicate-id
workflow witness. -/
def agC10 : AgentNodeConfig := ⟨"dup", ModelVariant.Fast, [], [], "p", "", false⟩

/-! Basic lemmas about paths and the adjacency representation. -/

/-- Paths compose. -/
theorem HasPath.trans {E : List (String × String)} {a b c : String}
    (h1 : HasPath E a b) (h2 : HasPath E b c) : HasPath E a c := by
  induction h1 with
  | single hmem => exact HasPath.cons hmem h2
  | cons hmem _ ih => exact HasPath.cons hmem (ih h2)

/-- Paths transport along edge-set inclusion. -/
theorem HasPath.mono {E E' : List (String × String)} (hsub : ∀ p ∈ E, p ∈ E')
    {a b : String} (h : HasPath E a b) : HasPath E' a b := by
  induction h with
  | single hmem => exact HasPath.single (hsub _ hmem)
  | cons hmem _ ih => exact HasPath.cons (hsub _ hmem) ih

/-- Acyclicity transports down edge-set inclusion. -/
theorem Acyclic.anti {E E' : List (String × String)} (hsub : ∀ p ∈ E', p ∈ E)
    (h : Acyclic E) : Acyclic E' :=
  fun n hn => h n (hn.mono hsub)

/-- Membership in the flattened pairs. -/
theorem mem_edgePairs {E : List (String × List String)} {p : String × String} :
    p ∈ edgePairs E ↔ ∃ e ∈ E, e.1 = p.1 ∧ p.2 ∈ e.2 := by
  simp only [edgePairs, List.mem_flatten, List.mem_map]
  constructor
  · rintro ⟨l, ⟨e, he, rfl⟩, hp⟩
    obtain ⟨t, ht, rfl⟩ := List.mem_map.1 hp
    exact ⟨e, he, rfl, ht⟩
  · rintro ⟨⟨a, bs⟩, he, h1, h2⟩
    dsimp only at h1 h2
    subst h1
    exact ⟨bs.map (fun t => (p.1, t)), ⟨(p.1, bs), he, rfl⟩, List.mem_map.2 ⟨p.2, h2, rfl⟩⟩

/-- A found adjacency entry is a member. -/
theorem mem_of_lookupEdges {E : List (String × List String)} {k : String} {ts : List String}
    (h : lookupEdges E k = some ts) : (k, ts) ∈ E := by
  induction E with
  | nil => simp [lookupEdges] at h
  | cons e rest ih =>
    obtain ⟨a, bs⟩ := e
    by_cases hk : a = k
    · subst hk
      simp only [lookupEdges, if_pos, Option.some.injEq] at h
      subst h
      exact List.mem_cons_self _ _
    · simp only [lookupEdges] at h
      rw [if_neg hk] at h
      exact List.mem_cons_of_mem _ (ih h)

/-- With key-unique adjacency, a member entry is the lookup result. -/
theorem lookupEdges_of_mem {E : List (String × List String)} {k : String} {ts : List String}
    (hkeys : (E.map (fun e => e.1)).Nodup) (h : (k, ts) ∈ E) : lookupEdges E k = some ts := by
  induction E with
  | nil => simp at h
  | cons e rest ih =>
    simp only [List.map_cons, List.nodup_cons] at hkeys
    rcases List.mem_cons.1 h with h | h
    · subst h; simp [lookupEdges]
    · have hne : e.1 ≠ k := by
        intro hc
        exact hkeys.1 (hc ▸ List.mem_map.2 ⟨(k, ts), h, rfl⟩)
      simp [lookupEdges, hne, ih hkeys.2 h]

/-- With key-unique adjacency, children membership is pair membership. -/
theorem mem_get_children_iff {g : DAG} (hkeys : (g.edges.map (fun e => e.1)).Nodup)
    {a b : String} : b ∈ g.get_children a ↔ (a, b) ∈ g.pairs := by
  constructor
  · intro hb
    unfold DAG.get_children at hb
    cases hl : lookupEdges g.edges a with
    | none => rw [hl] at hb; simp at hb
    | some ts =>
      rw [hl] at hb
      exact mem_edgePairs.2 ⟨(a, ts), mem_of_lookupEdges hl, rfl, hb⟩
  · intro hp
    obtain ⟨⟨x, ts⟩, he, h1, h2⟩ := mem_edgePairs.1 hp
    dsimp only at h1 h2
    subst h1
    unfold DAG.get_children
    rw [lookupEdges_of_mem hkeys he]
    exact h2

/-- Unfolding of edgePairs over a cons. -/
theorem edgePairs_cons (e : String × List String) (rest : List (String × List String)) :
    edgePairs (e :: rest) = e.2.map (fun t => (e.1, t)) ++ edgePairs rest := by
  simp [edgePairs]

/-- Each adjacency entry's target list contributes a sublist of the pairs. -/
theorem map_entry_sublist_edgePairs {E : List (String × List String)}
    {e : String × List String} (he : e ∈ E) :
    List.Sublist (e.2.map (fun t => (e.1, t))) (edgePairs E) := by
  induction E with
  | nil => simp at he
  | cons f rest ih =>
    rw [edgePairs_cons]
    rcases List.mem_cons.1 he with h | h
    · subst h
      exact List.sublist_append_left _ _
    · exact (ih h).trans (List.sublist_append_right _ _)

/-- With duplicate-free pairs, each child list is duplicate-free. -/
theorem get_children_nodup {g : DAG} (hpairs : g.pairs.Nodup) (a : String) :
    (g.get_children a).Nodup := by
  unfold DAG.get_children
  cases hl : lookupEdges g.edges a with
  | none => simp
  | some ts =>
    have hsub := map_entry_sublist_edgePairs (E := g.edges) (mem_of_lookupEdges hl)
    have : (ts.map (fun t => (a, t))).Nodup := (hpairs.sublist hsub)
    simpa using this.of_map _

/-- Children sit inside the DFS universe. -/
theorem get_children_subset_dfsU (g : DAG) (c : String) :
    ∀ x ∈ g.get_children c, x ∈ dfsU g := by
  intro x hx
  unfold DAG.get_children at hx
  cases hl : lookupEdges g.edges c with
  | none => rw [hl] at hx; simp at hx
  | some ts =>
    rw [hl] at hx
    exact List.mem_flatten.2 ⟨ts, List.mem_map.2 ⟨_, mem_of_lookupEdges hl, rfl⟩, hx⟩

/-- insertEdge rearranges the pairs to the old ones plus the new pair. -/
theorem edgePairs_insertEdge (E : List (String × List String)) (f t : String) :
    List.Perm (edgePairs (insertEdge E f t)) (edgePairs E ++ [(f, t)]) := by
  induction E with
  | nil => simp [insertEdge, edgePairs]
  | cons e rest ih =>
    by_cases hf : e.1 = f
    · subst hf
      simp only [insertEdge, if_pos]
      rw [edgePairs_cons, edgePairs_cons]
      have h1 : List.Perm ([(e.1, t)] ++ edgePairs rest) (edgePairs rest ++ [(e.1, t)]) :=
        List.perm_append_comm
      have h2 := h1.append_left (e.2.map (fun x => (e.1, x)))
      simpa [List.append_assoc] using h2
    · simp only [insertEdge, if_neg hf]
      rw [edgePairs_cons, edgePairs_cons]
      have h2 := ih.append_left (e.2.map (fun x => (e.1, x)))
      simpa [List.append_assoc] using h2

/-- Keys after insertEdge come from the old keys or are the new source. -/
theorem mem_keys_insertEdge {E : List (String × List String)} {f t x : String}
    (h : x ∈ (insertEdge E f t).map (fun e => e.1)) :
    x ∈ E.map (fun e => e.1) ∨ x = f := by
  induction E with
  | nil => simp [insertEdge] at h; exact Or.inr h
  | cons e rest ih =>
    by_cases hf : e.1 = f
    · simp only [insertEdge, if_pos hf, List.map_cons] at h
      simpa using Or.inl h
    · simp only [insertEdge, if_neg hf, List.map_cons, List.mem_cons] at h
      rcases h with h | h
      · exact Or.inl (by simp [h])
      · rcases ih h with h' | h'
        · exact Or.inl (List.mem_cons_of_mem _ h')
        · exact Or.inr h'

/-- insertEdge keeps the adjacency key-unique. -/
theorem keys_nodup_insertEdge {E : List (String × List String)} {f t : String}
    (h : (E.map (fun e => e.1)).Nodup) :
    ((insertEdge E f t).map (fun e => e.1)).Nodup := by
  induction E with
  | nil => simp [insertEdge]
  | cons e rest ih =>
    simp only [List.map_cons, List.nodup_cons] at h
    by_cases hf : e.1 = f
    · simp only [insertEdge, if_pos hf, List.map_cons, List.nodup_cons]
      exact ⟨h.1, h.2⟩
    · simp only [insertEdge, if_neg hf, List.map_cons, List.nodup_cons]
      refine ⟨fun hc => ?_, ih h.2⟩
      rcases mem_keys_insertEdge hc with h' | h'
      · exact h.1 h'
      · exact hf h'

/-- A per-entry rewrite that keeps keys and passes to target sublists
yields a pairs sublist. -/
theorem edgePairs_map_sublist {E : List (String × List String)}
    (f : String × List String → String × List String)
    (h : ∀ e ∈ E, (f e).1 = e.1 ∧ List.Sublist (f e).2 e.2) :
    List.Sublist (edgePairs (E.map f)) (edgePairs E) := by
  induction E with
  | nil => simp [edgePairs]
  | cons e rest ih =>
    rw [List.map_cons, edgePairs_cons, edgePairs_cons]
    have he := h e (List.mem_cons_self _ _)
    refine List.Sublist.append ?_ (ih (fun x hx => h x (List.mem_cons_of_mem _ hx)))
    rw [he.1]
    exact he.2.map _

/-- The mapped adjacency keeps its keys. -/
theorem keys_map_eq {E : List (String × List String)}
    (f : String × List String → String × List String)
    (h : ∀ e ∈ E, (f e).1 = e.1) :
    (E.map f).map (fun e => e.1) = E.map (fun e => e.1) := by
  induction E with
  | nil => simp
  | cons e rest ih =>
    simp only [List.map_cons]
    rw [h e (List.mem_cons_self _ _), ih (fun x hx => h x (List.mem_cons_of_mem _ hx))]

/-- removeFirst yields a sublist. -/
theorem removeFirst_sublist (l : List String) (t : String) :
    List.Sublist (removeFirst l t) l := by
  induction l with
  | nil => simp [removeFirst]
  | cons x rest ih =>
    by_cases hx : x = t
    · simp only [removeFirst, if_pos hx]
      exact (List.sublist_cons_self _ _)
    · simp only [removeFirst, if_neg hx]
      exact ih.cons₂ _

/-- Decomposition of a path through one added edge: either the path avoids
the new edge, or it runs to its source and continues from its target. -/
theorem hasPath_append_edge {E : List (String × String)} {f t : String}
    (hnp : ¬ HasPath E t f) (hne : f ≠ t) {a b : String}
    (h : HasPath (E ++ [(f, t)]) a b) :
    HasPath E a b ∨ ((a = f ∨ HasPath E a f) ∧ (b = t ∨ HasPath E t b)) := by
  induction h with
  | single hmem =>
    rcases List.mem_append.1 hmem with hE | hnew
    · exact Or.inl (HasPath.single hE)
    · simp only [List.mem_singleton, Prod.mk.injEq] at hnew
      exact Or.inr ⟨Or.inl hnew.1, Or.inl hnew.2⟩
  | cons hmem _ ih =>
    rename_i a' x b' _
    rcases List.mem_append.1 hmem with hE | hnew
    · rcases ih with hxb | ⟨hxf, htb⟩
      · exact Or.inl (HasPath.cons hE hxb)
      · refine Or.inr ⟨?_, htb⟩
        rcases hxf with hxf | hpf
        · exact Or.inr (HasPath.single (hxf ▸ hE))
        · exact Or.inr (HasPath.cons hE hpf)
    · simp only [List.mem_singleton, Prod.mk.injEq] at hnew
      obtain ⟨rfl, rfl⟩ := hnew
      rcases ih with htb | ⟨hxf, _⟩
      · exact Or.inr ⟨Or.inl rfl, Or.inr htb⟩
      · rcases hxf with hxf | hpf
        · exact absurd hxf.symm hne
        · exact absurd hpf hnp

/-! Correctness of the cycle-guard DFS. -/

/-- Visited-set bookkeeping for the neighbor loop, given it for the
recursive call: the visited set grows inside the universe and stays
duplicate-free. -/
theorem hasPathList_visited (U : List String)
    (rec : String → List String → Option (Bool × List String))
    (hrec : ∀ current visited b v', current ∈ U → (∀ x ∈ visited, x ∈ U) → visited.Nodup →
      rec current visited = some (b, v') →
      (∀ x ∈ v', x ∈ U) ∧ v'.Nodup ∧ visited.length ≤ v'.length ∧ (∀ x ∈ visited, x ∈ v')) :
    ∀ (ns visited : List String) (b : Bool) (v' : List String),
      (∀ x ∈ ns, x ∈ U) → (∀ x ∈ visited, x ∈ U) → visited.Nodup →
      hasPathList rec ns visited = some (b, v') →
      (∀ x ∈ v', x ∈ U) ∧ v'.Nodup ∧ visited.length ≤ v'.length ∧ (∀ x ∈ visited, x ∈ v') := by
  intro ns
  induction ns with
  | nil =>
    intro visited b v' _ hv hnd h
    simp only [hasPathList, Option.some.injEq, Prod.mk.injEq] at h
    obtain ⟨_, rfl⟩ := h
    exact ⟨hv, hnd, Nat.le_refl _, fun x hx => hx⟩
  | cons n ns ih =>
    intro visited b v' hns hv hnd h
    simp only [hasPathList] at h
    cases hr : rec n visited with
    | none => rw [hr] at h; exact absurd h (by simp)
    | some r =>
      obtain ⟨b1, v1⟩ := r
      have hprops := hrec n visited b1 v1 (hns n (List.mem_cons_self _ _)) hv hnd hr
      rw [hr] at h
      cases b1 with
      | true =>
        simp only [Option.some.injEq, Prod.mk.injEq] at h
        obtain ⟨_, rfl⟩ := h
        exact ⟨hprops.1, hprops.2.1, hprops.2.2.1, hprops.2.2.2⟩
      | false =>
        have hrest := ih v1 b v' (fun x hx => hns x (List.mem_cons_of_mem _ hx))
          hprops.1 hprops.2.1 h
        exact ⟨hrest.1, hrest.2.1, Nat.le_trans hprops.2.2.1 hrest.2.2.1,
          fun x hx => hrest.2.2.2 x (hprops.2.2.2 x hx)⟩

/-- Visited-set bookkeeping for the DFS. -/
theorem hasPathDfs_visited (g : DAG) (target : String) (U : List String)
    (hU : ∀ x ∈ dfsU g, x ∈ U) :
    ∀ (fuel : Nat) (current : String) (visited : List String) (b : Bool) (v' : List String),
      current ∈ U → (∀ x ∈ visited, x ∈ U) → visited.Nodup →
      hasPathDfs g target fuel current visited = some (b, v') →
      (∀ x ∈ v', x ∈ U) ∧ v'.Nodup ∧ visited.length ≤ v'.length ∧ (∀ x ∈ visited, x ∈ v') := by
  intro fuel
  induction fuel with
  | zero => intro current visited b v' _ _ _ h; exact absurd h (by simp [hasPathDfs])
  | succ fuel ih =>
    intro current visited b v' hc hv hnd h
    by_cases h1 : current = target
    · simp only [hasPathDfs, if_pos h1, Option.some.injEq, Prod.mk.injEq] at h
      obtain ⟨_, rfl⟩ := h
      exact ⟨hv, hnd, Nat.le_refl _, fun x hx => hx⟩
    · by_cases h2 : current ∈ visited
      · simp only [hasPathDfs, if_neg h1, if_pos h2, Option.some.injEq, Prod.mk.injEq] at h
        obtain ⟨_, rfl⟩ := h
        exact ⟨hv, hnd, Nat.le_refl _, fun x hx => hx⟩
      · simp only [hasPathDfs, if_neg h1, if_neg h2] at h
        have hlist := hasPathList_visited U (hasPathDfs g target fuel) ih
          (g.get_children current) (current :: visited) b v'
          (fun x hx => hU x (get_children_subset_dfsU g current x hx))
          (fun x hx => by
            rcases List.mem_cons.1 hx with rfl | hx
            · exact hc
            · exact hv x hx)
          (List.nodup_cons.2 ⟨h2, hnd⟩) h
        exact ⟨hlist.1, hlist.2.1, Nat.le_trans (Nat.le_succ _) hlist.2.2.1,
          fun x hx => hlist.2.2.2 x (List.mem_cons_of_mem _ hx)⟩

/-- Fuel sufficiency for the neighbor loop. -/
theorem hasPathList_isSome (g : DAG) (target : String) (U : List String)
    (hU : ∀ x ∈ dfsU g, x ∈ U) (fuel : Nat)
    (hrecV : ∀ (current : String) (visited : List String) (b : Bool) (v' : List String),
      current ∈ U → (∀ x ∈ visited, x ∈ U) → visited.Nodup →
      hasPathDfs g target fuel current visited = some (b, v') →
      (∀ x ∈ v', x ∈ U) ∧ v'.Nodup ∧ visited.length ≤ v'.length ∧ (∀ x ∈ visited, x ∈ v'))
    (hrecS : ∀ (current : String) (visited : List String),
      current ∈ U → (∀ x ∈ visited, x ∈ U) → visited.Nodup →
      U.dedup.length < fuel + visited.length →
      (hasPathDfs g target fuel current visited).isSome) :
    ∀ (ns visited : List String),
      (∀ x ∈ ns, x ∈ U) → (∀ x ∈ visited, x ∈ U) → visited.Nodup →
      U.dedup.length < fuel + visited.length →
      (hasPathList (hasPathDfs g target fuel) ns visited).isSome := by
  intro ns
  induction ns with
  | nil => intro visited _ _ _ _; simp [hasPathList]
  | cons n ns ih =>
    intro visited hns hv hnd hlen
    have hsome := hrecS n visited (hns n (List.mem_cons_self _ _)) hv hnd hlen
    cases hr : hasPathDfs g target fuel n visited with
    | none => rw [hr] at hsome; simp at hsome
    | some r =>
      obtain ⟨b1, v1⟩ := r
      cases b1 with
      | true => simp [hasPathList, hr]
      | false =>
        have hprops := hrecV n visited false v1 (hns n (List.mem_cons_self _ _)) hv hnd hr
        have := ih v1 (fun x hx => hns x (List.mem_cons_of_mem _ hx)) hprops.1 hprops.2.1
          (Nat.lt_of_lt_of_le hlen (Nat.add_le_add_left hprops.2.2.1 _))
        simpa [hasPathList, hr] using this

/-- Fuel sufficiency for the DFS: with the visited set inside the universe
and strictly less room than fuel, the search never exhausts its budget. -/
theorem hasPathDfs_isSome (g : DAG) (target : String) (U : List String)
    (hU : ∀ x ∈ dfsU g, x ∈ U) :
    ∀ (fuel : Nat) (current : String) (visited : List String),
      current ∈ U → (∀ x ∈ visited, x ∈ U) → visited.Nodup →
      U.dedup.length < fuel + visited.length →
      (hasPathDfs g target fuel current visited).isSome := by
  intro fuel
  induction fuel with
  | zero =>
    intro current visited _ hv hnd hlen
    have hsub : List.Subperm visited U.dedup :=
      List.subperm_of_subset hnd (fun x hx => List.mem_dedup.2 (hv _ hx))
    have hle := hsub.length_le
    exact absurd hlen (by omega)
  | succ fuel ih =>
    intro current visited hc hv hnd hlen
    by_cases h1 : current = target
    · simp [hasPathDfs, h1]
    · by_cases h2 : current ∈ visited
      · simp [hasPathDfs, h1, h2]
      · simp only [hasPathDfs, if_neg h1, if_neg h2]
        exact hasPathList_isSome g target U hU fuel
          (hasPathDfs_visited g target U hU fuel) ih
          (g.get_children current) (current :: visited)
          (fun x hx => hU x (get_children_subset_dfsU g current x hx))
          (fun x hx => by
            rcases List.mem_cons.1 hx with rfl | hx
            · exact hc
            · exact hv x hx)
          (List.nodup_cons.2 ⟨h2, hnd⟩)
          (by simp only [List.length_cons]; omega)

/-- Closure property of a failed neighbor loop: everything visited on a
false verdict is exhausted — not the target and with all children
visited. -/
theorem hasPathList_false_closure (g : DAG) (target : String)
    (rec : String → List String → Option (Bool × List String))
    (hrec : ∀ (current : String) (visited v' : List String),
      rec current visited = some (false, v') →
      (∀ x ∈ visited, x ∈ v') ∧ current ∈ v' ∧
      (∀ x ∈ v', x ∉ visited → x ≠ target ∧ ∀ y ∈ g.get_children x, y ∈ v')) :
    ∀ (ns visited v' : List String),
      hasPathList rec ns visited = some (false, v') →
      (∀ x ∈ visited, x ∈ v') ∧ (∀ n ∈ ns, n ∈ v') ∧
      (∀ x ∈ v', x ∉ visited → x ≠ target ∧ ∀ y ∈ g.get_children x, y ∈ v') := by
  intro ns
  induction ns with
  | nil =>
    intro visited v' h
    simp only [hasPathList, Option.some.injEq, Prod.mk.injEq] at h
    obtain ⟨_, rfl⟩ := h
    exact ⟨fun x hx => hx, by simp, fun x hx hnx => absurd hx hnx⟩
  | cons n ns ih =>
    intro visited v' h
    simp only [hasPathList] at h
    cases hr : rec n visited with
    | none => rw [hr] at h; exact absurd h (by simp)
    | some r =>
      obtain ⟨b1, v1⟩ := r
      rw [hr] at h
      cases b1 with
      | true => exact absurd h (by simp)
      | false =>
        have h1 := hrec n visited v1 hr
        have h2 := ih v1 v' h
        refine ⟨fun x hx => h2.1 x (h1.1 x hx), ?_, ?_⟩
        · intro m hm
          rcases List.mem_cons.1 hm with rfl | hm
          · exact h2.1 m h1.2.1
          · exact h2.2.1 m hm
        · intro x hx hnx
          by_cases hx1 : x ∈ v1
          · have := h1.2.2 x hx1 hnx
            exact ⟨this.1, fun y hy => h2.1 y (this.2 y hy)⟩
          · exact h2.2.2 x hx hx1

/-- Closure property of a failed DFS call. -/
theorem hasPathDfs_false_closure (g : DAG) (target : String) :
    ∀ (fuel : Nat) (current : String) (visited v' : List String),
      hasPathDfs g target fuel current visited = some (false, v') →
      (∀ x ∈ visited, x ∈ v') ∧ current ∈ v' ∧
      (∀ x ∈ v', x ∉ visited → x ≠ target ∧ ∀ y ∈ g.get_children x, y ∈ v') := by
  intro fuel
  induction fuel with
  | zero => intro current visited v' h; exact absurd h (by simp [hasPathDfs])
  | succ fuel ih =>
    intro current visited v' h
    by_cases h1 : current = target
    · exact absurd h (by simp [hasPathDfs, h1])
    · by_cases h2 : current ∈ visited
      · simp only [hasPathDfs, if_neg h1, if_pos h2, Option.some.injEq, Prod.mk.injEq] at h
        obtain ⟨_, rfl⟩ := h
        exact ⟨fun x hx => hx, h2, fun x hx hnx => absurd hx hnx⟩
      · simp only [hasPathDfs, if_neg h1, if_neg h2] at h
        have hlist := hasPathList_false_closure g target (hasPathDfs g target fuel) ih
          (g.get_children current) (current :: visited) v' h
        refine ⟨fun x hx => hlist.1 x (List.mem_cons_of_mem _ hx),
          hlist.1 current (List.mem_cons_self _ _), ?_⟩
        intro x hx hnx
        by_cases hxc : x = current
        · subst hxc
          exact ⟨h1, hlist.2.1⟩
        · exact hlist.2.2 x hx (by
            intro hc
            rcases List.mem_cons.1 hc with hc | hc
            · exact hxc hc
            · exact hnx hc)

/-- The cycle-guard DFS never exhausts its fuel budget. -/
theorem would_create_cycle_isSome (g : DAG) (f t : String) :
    (hasPathDfs g f (dfsFuel g t) t []).isSome := by
  apply hasPathDfs_isSome g f (t :: dfsU g) (fun x hx => List.mem_cons_of_mem _ hx)
    (dfsFuel g t) t [] (List.mem_cons_self _ _) (by simp) List.nodup_nil
  have := ((t :: dfsU g).dedup_sublist).length_le
  simp only [dfsFuel, List.length_nil, Nat.add_zero]
  omega

/-- Completeness of the cycle guard: a pre-existing path (or the loop
case) is always detected. -/
theorem would_create_cycle_complete (g : DAG) (f t : String)
    (hkeys : (g.edges.map (fun e => e.1)).Nodup)
    (h : HasPath g.pairs t f ∨ f = t) :
    g.would_create_cycle f t = true := by
  unfold DAG.would_create_cycle
  cases hr : hasPathDfs g f (dfsFuel g t) t [] with
  | none => exact absurd (would_create_cycle_isSome g f t) (by simp [hr])
  | some r =>
    obtain ⟨b, v'⟩ := r
    cases b with
    | true => rfl
    | false =>
      exfalso
      have hcl := hasPathDfs_false_closure g f (dfsFuel g t) t [] v' hr
      have hstep : ∀ a b, HasPath g.pairs a b → a ∈ v' → b ∈ v' := by
        intro a b hp
        induction hp with
        | single hmem =>
          rename_i a' b'
          intro ha
          exact ((hcl.2.2 a' ha (by simp)).2) _ ((mem_get_children_iff hkeys).2 hmem)
        | cons hmem _ ih =>
          rename_i a' x' b' _
          intro ha
          exact ih (((hcl.2.2 a' ha (by simp)).2) _ ((mem_get_children_iff hkeys).2 hmem))
      rcases h with hpath | hft
      · have hf : f ∈ v' := hstep t f hpath hcl.2.1
        exact (hcl.2.2 f hf (by simp)).1 rfl
      · -- f = t: the DFS would have returned true immediately
        rw [show dfsFuel g t = (t :: dfsU g).length + 1 from rfl] at hr
        simp [hasPathDfs, hft] at hr

/-! Preservation of the well-formedness pack by each operation. -/

/-- The empty graph is well-formed. -/
theorem daginv_new : DAGInv DAG.new := by
  refine ⟨by simp [DAG.new], by simp [DAG.new], by simp [DAG.new, DAG.pairs, edgePairs], ?_, ?_, ?_⟩
  · intro p hp; simp [DAG.new, DAG.pairs, edgePairs] at hp
  · intro p hp; simp [DAG.new, DAG.pairs, edgePairs] at hp
  · intro n hn
    cases hn with
    | single hmem => simp [DAG.new, DAG.pairs, edgePairs] at hmem
    | cons hmem _ => simp [DAG.new, DAG.pairs, edgePairs] at hmem

/-- add_node preserves the pack. -/
theorem daginv_add_node {g g' : DAG} {n : String} (hinv : DAGInv g)
    (h : g.add_node n = .ok g') : DAGInv g' := by
  unfold DAG.add_node at h
  by_cases hn : n ∈ g.nodes
  · rw [if_pos hn] at h
    simp only [Except.ok.injEq] at h
    exact h ▸ hinv
  · rw [if_neg hn] at h
    simp only [Except.ok.injEq] at h
    subst h
    refine ⟨?_, hinv.keysNodup, hinv.pairsNodup, ?_, ?_, hinv.acyclic⟩
    · simp only [List.nodup_append, List.nodup_cons, List.not_mem_nil, not_false_iff,
        List.nodup_nil, and_true, true_and]
      exact ⟨hinv.nodesNodup, by simpa using hn⟩
    · intro p hp; exact List.mem_append_left _ (hinv.srcMem p hp)
    · intro p hp; exact List.mem_append_left _ (hinv.tgtMem p hp)

/-- add_edge preserves the pack. -/
theorem daginv_add_edge {g g' : DAG} {u v : String} (hinv : DAGInv g)
    (h : g.add_edge u v = .ok g') : DAGInv g' := by
  unfold DAG.add_edge at h
  by_cases h1 : u ∉ g.nodes
  · rw [if_pos h1] at h; exact absurd h (by simp)
  · rw [if_neg h1] at h
    by_cases h2 : v ∉ g.nodes
    · rw [if_pos h2] at h; exact absurd h (by simp)
    · rw [if_neg h2] at h
      by_cases h3 : v ∈ (lookupEdges g.edges u).getD []
      · rw [if_pos h3] at h
        simp only [Except.ok.injEq] at h
        exact h ▸ hinv
      · rw [if_neg h3] at h
        by_cases h4 : g.would_create_cycle u v
        · rw [if_pos h4] at h; exact absurd h (by simp)
        · rw [if_neg h4] at h
          simp only [Except.ok.injEq] at h
          subst h
          have hu : u ∈ g.nodes := not_not.1 h1
          have hv : v ∈ g.nodes := not_not.1 h2
          have hnp : ¬ (HasPath g.pairs v u ∨ u = v) := fun hc =>
            absurd (would_create_cycle_complete g u v hinv.keysNodup hc) (by simpa using h4)
          have hperm := edgePairs_insertEdge g.edges u v
          have hnewmem : (u, v) ∉ g.pairs := fun hc =>
            h3 ((mem_get_children_iff hinv.keysNodup).2 hc)
          have hmem_iff : ∀ p, p ∈ edgePairs (insertEdge g.edges u v) ↔
              p ∈ g.pairs ++ [(u, v)] := fun p => hperm.mem_iff
          refine ⟨hinv.nodesNodup, keys_nodup_insertEdge hinv.keysNodup, ?_, ?_, ?_, ?_⟩
          · refine hperm.nodup_iff.2 ?_
            simp only [List.nodup_append, List.nodup_cons, List.not_mem_nil, not_false_iff,
              List.nodup_nil, and_true, true_and, List.disjoint_singleton]
            exact ⟨hinv.pairsNodup, by simpa using hnewmem⟩
          · intro p hp
            rcases List.mem_append.1 ((hmem_iff p).1 hp) with hp | hp
            · exact hinv.srcMem p hp
            · simp only [List.mem_singleton] at hp
              subst hp; exact hu
          · intro p hp
            rcases List.mem_append.1 ((hmem_iff p).1 hp) with hp | hp
            · exact hinv.tgtMem p hp
            · simp only [List.mem_singleton] at hp
              subst hp; exact hv
          · intro n hn
            have hn' : HasPath (g.pairs ++ [(u, v)]) n n :=
              hn.mono (fun p hp => (hmem_iff p).1 hp)
            have hdec := hasPath_append_edge (fun hc => hnp (Or.inl hc))
              (fun hc => hnp (Or.inr hc)) hn'
            rcases hdec with hcyc | ⟨hnu, hvn⟩
            · exact hinv.acyclic n hcyc
            · rcases hnu with rfl | hnu
              · rcases hvn with hv' | hv'
                · exact hnp (Or.inr hv')
                · exact hnp (Or.inl hv')
              · rcases hvn with rfl | hv'
                · exact hnp (Or.inl hnu)
                · exact hnp (Or.inl (hv'.trans hnu))

/-- remove_edge preserves the pack. -/
theorem daginv_remove_edge {g g' : DAG} {u v : String} (hinv : DAGInv g)
    (h : g.remove_edge u v = .ok g') : DAGInv g' := by
  unfold DAG.remove_edge at h
  split at h
  · rename_i targets hl
    split at h
    case _ ht =>
      simp only [Except.ok.injEq] at h
      subst h
      have hkey : ∀ e ∈ g.edges,
          ((fun e => if e.1 = u then (e.1, removeFirst e.2 v) else e) e).1 = e.1 := by
        intro e _
        by_cases he : e.1 = u <;> simp [he]
      have hsub : ∀ e ∈ g.edges,
          ((fun e => if e.1 = u then (e.1, removeFirst e.2 v) else e) e).1 = e.1 ∧
          List.Sublist ((fun e => if e.1 = u then (e.1, removeFirst e.2 v) else e) e).2 e.2 := by
        intro e he
        refine ⟨hkey e he, ?_⟩
        by_cases h' : e.1 = u
        · simp only [if_pos h']
          exact removeFirst_sublist _ _
        · simp [if_neg h']
      have hps := edgePairs_map_sublist _ hsub
      exact ⟨hinv.nodesNodup, by rw [keys_map_eq _ hkey]; exact hinv.keysNodup,
        hinv.pairsNodup.sublist hps,
        fun p hp => hinv.srcMem p (hps.subset hp),
        fun p hp => hinv.tgtMem p (hps.subset hp),
        hinv.acyclic.anti (fun p hp => hps.subset hp)⟩
    case _ ht => exact absurd h (by simp)
  · exact absurd h (by simp)

/-- clear_incoming_edges preserves the pack. -/
theorem daginv_clear_incoming {g : DAG} {n : String} (hinv : DAGInv g) :
    DAGInv (g.clear_incoming_edges n) := by
  unfold DAG.clear_incoming_edges
  have hsub : ∀ e ∈ g.edges,
      ((fun e => (e.1, e.2.filter (fun t => t ≠ n))) e).1 = e.1 ∧
      List.Sublist ((fun e => (e.1, e.2.filter (fun t => t ≠ n))) e).2 e.2 := by
    intro e _
    exact ⟨rfl, List.filter_sublist _⟩
  have hps := edgePairs_map_sublist _ hsub
  exact ⟨hinv.nodesNodup, by rw [keys_map_eq _ (fun e he => (hsub e he).1)]; exact hinv.keysNodup,
    hinv.pairsNodup.sublist hps,
    fun p hp => hinv.srcMem p (hps.subset hp),
    fun p hp => hinv.tgtMem p (hps.subset hp),
    hinv.acyclic.anti (fun p hp => hps.subset hp)⟩

/-- Every reachable graph is well-formed and acyclic. -/
theorem reachable_inv {g : DAG} (h : Reachable g) : DAGInv g := by
  induction h with
  | new => exact daginv_new
  | add_node _ heq ih => exact daginv_add_node ih heq
  | add_edge _ heq ih => exact daginv_add_edge ih heq
  | remove_edge _ heq ih => exact daginv_remove_edge ih heq
  | clear_incoming _ ih => exact daginv_clear_incoming ih

/-! Correctness of the Kahn loop. -/

/-- Splitting a count along a second predicate. -/
theorem countP_split {α : Type} (l : List α) (q r : α → Bool) :
    l.countP q = l.countP (fun x => q x && r x) + l.countP (fun x => q x && !r x) := by
  induction l with
  | nil => simp
  | cons a l ih =>
    simp only [List.countP_cons]
    cases hq : q a <;> cases hr : r a <;> simp [hq, hr] <;> omega

/-- Counting a single value in a duplicate-free list. -/
theorem countP_eq_single {α : Type} [DecidableEq α] (l : List α) (hl : l.Nodup) (c : α) :
    l.countP (fun p => decide (p = c)) = if c ∈ l then 1 else 0 := by
  induction l with
  | nil => simp
  | cons a l ih =>
    simp only [List.nodup_cons] at hl
    simp only [List.countP_cons, List.mem_cons]
    by_cases hac : a = c
    · subst hac
      have hz : l.countP (fun p => decide (p = a)) = 0 :=
        List.countP_eq_zero.2 (fun x hx => by simp; rintro rfl; exact hl.1 hx)
      simp [hz]
    · have hca : ¬(c = a) := fun hc => hac hc.symm
      simp [hac, hca, ih hl.2]

/-- The decrement pass as a pointwise function, for duplicate-free
neighbor lists. -/
theorem decrementAll_fn (indeg : String → Nat) (ns : List String) (hnd : ns.Nodup)
    (x : String) :
    (decrementAll indeg ns).1 x = if x ∈ ns then indeg x - 1 else indeg x := by
  induction ns generalizing indeg with
  | nil => simp [decrementAll]
  | cons m rest ih =>
    simp only [List.nodup_cons] at hnd
    simp only [decrementAll]
    rw [ih _ hnd.2]
    by_cases hx : x = m
    · subst hx
      simp [hnd.1, fun h => hnd.1 h]
    · by_cases hr : x ∈ rest <;> simp [hx, hr]

/-- The queue produced by the decrement pass, for duplicate-free neighbor
lists: exactly the neighbors whose count reaches zero. -/
theorem decrementAll_queue (indeg : String → Nat) (ns : List String) (hnd : ns.Nodup) :
    (decrementAll indeg ns).2 = ns.filter (fun m => decide (indeg m - 1 = 0)) := by
  induction ns generalizing indeg with
  | nil => simp [decrementAll]
  | cons m rest ih =>
    simp only [List.nodup_cons] at hnd
    simp only [decrementAll, List.filter_cons]
    rw [ih _ hnd.2]
    have hcongr : rest.filter
        (fun m' => decide ((fun x => if x = m then indeg m - 1 else indeg x) m' - 1 = 0)) =
        rest.filter (fun m' => decide (indeg m' - 1 = 0)) := by
      apply List.filter_congr
      intro m' hm'
      have : m' ≠ m := fun hc => hnd.1 (hc ▸ hm')
      simp [this]
    rw [hcongr]
    by_cases hd : indeg m - 1 = 0 <;> simp [hd]

/-- Master invariant of the Kahn loop: starting from a consistent
queue/in-degree/result state with enough fuel, the loop returns a
duplicate-free list of registered nodes extending the current result, and
every node left out retains an unprocessed predecessor. -/
theorem kahnLoop_master (g : DAG) (hinv : DAGInv g) :
    ∀ (fuel : Nat) (queue result : List String) (indeg : String → Nat),
      (result ++ queue).Nodup →
      (∀ x ∈ result ++ queue, x ∈ g.nodes) →
      (∀ n, indeg n = g.pairs.countP (fun p => decide (p.2 = n) && decide (p.1 ∉ result))) →
      (∀ n ∈ g.nodes, indeg n = 0 → n ∈ result ++ queue) →
      (∀ x ∈ result ++ queue, indeg x = 0) →
      g.nodes.length < fuel + result.length →
      (kahnLoop g fuel queue indeg result).Nodup ∧
      (∀ x ∈ kahnLoop g fuel queue indeg result, x ∈ g.nodes) ∧
      (∀ x ∈ result ++ queue, x ∈ kahnLoop g fuel queue indeg result) ∧
      (∀ n ∈ g.nodes, n ∉ kahnLoop g fuel queue indeg result →
        ∃ u, u ∈ g.nodes ∧ u ∉ kahnLoop g fuel queue indeg result ∧ (u, n) ∈ g.pairs) := by
  intro fuel
  induction fuel with
  | zero =>
    intro queue result indeg ha hb _ _ _ hfuel
    exfalso
    have hsp : List.Subperm (result ++ queue) g.nodes := List.subperm_of_subset ha hb
    have := hsp.length_le
    simp only [List.length_append] at this
    omega
  | succ fuel ih =>
    intro queue result indeg ha hb hc hd he hfuel
    cases queue with
    | nil =>
      have hR : kahnLoop g (fuel + 1) [] indeg result = result := rfl
      rw [hR]
      simp only [List.append_nil] at ha hb hd he
      refine ⟨ha, hb, fun x hx => by simpa using hx, ?_⟩
      intro n hn hnR
      have hne : indeg n ≠ 0 := fun hz => hnR (hd n hn hz)
      have hpos : 0 < g.pairs.countP (fun p => decide (p.2 = n) && decide (p.1 ∉ result)) := by
        have := hc n; omega
      obtain ⟨p, hp, hpred⟩ := List.countP_pos.1 hpos
      simp only [Bool.and_eq_true, decide_eq_true_eq] at hpred
      obtain ⟨p1, p2⟩ := p
      simp only at hpred
      exact ⟨p1, hinv.srcMem _ hp, hpred.2, hpred.1 ▸ hp⟩
    | cons node queue' =>
      have hns_nodup : (g.get_children node).Nodup := get_children_nodup hinv.pairsNodup node
      have hns_mem : ∀ m, m ∈ g.get_children node ↔ (node, m) ∈ g.pairs := fun m =>
        mem_get_children_iff hinv.keysNodup
      have heq : kahnLoop g (fuel + 1) (node :: queue') indeg result =
          kahnLoop g fuel (queue' ++ (decrementAll indeg (g.get_children node)).2)
            (decrementAll indeg (g.get_children node)).1 (result ++ [node]) := rfl
      set ns := g.get_children node with hns
      set newQ := (decrementAll indeg ns).2 with hnewQ
      set indeg1 := (decrementAll indeg ns).1 with hindeg1
      have hnodeR : node ∉ result := by
        simp only [List.nodup_append, List.nodup_cons, List.disjoint_cons_right] at ha
        exact ha.2.2.1
      have hz : indeg node = 0 := he node (by simp)
      have hfn : ∀ x, indeg1 x = if x ∈ ns then indeg x - 1 else indeg x := by
        intro x; rw [hindeg1, decrementAll_fn indeg ns hns_nodup x]
      have hqdef : newQ = ns.filter (fun m => decide (indeg m - 1 = 0)) := by
        rw [hnewQ, decrementAll_queue indeg ns hns_nodup]
      have hpos : ∀ m ∈ ns, 1 ≤ indeg m := by
        intro m hm
        have hpair : (node, m) ∈ g.pairs := (hns_mem m).1 hm
        have : 0 < g.pairs.countP (fun p => decide (p.2 = m) && decide (p.1 ∉ result)) :=
          List.countP_pos.2 ⟨(node, m), hpair, by simp [hnodeR]⟩
        have := hc m; omega
      have hmemQ : ∀ m, m ∈ newQ ↔ m ∈ ns ∧ indeg m = 1 := by
        intro m
        rw [hqdef]
        simp only [List.mem_filter, decide_eq_true_eq]
        constructor
        · rintro ⟨hm, hd1⟩
          have := hpos m hm
          exact ⟨hm, by omega⟩
        · rintro ⟨hm, h1⟩
          exact ⟨hm, by omega⟩
      have hQ_fresh : ∀ m ∈ newQ, m ∉ result ++ node :: queue' := by
        intro m hm hc'
        have h1 := (hmemQ m).1 hm
        have := he m hc'
        omega
      have hQ_nodup : newQ.Nodup := by
        rw [hqdef]; exact hns_nodup.filter _
      have ha' : ((result ++ [node]) ++ (queue' ++ newQ)).Nodup := by
        have hre : (result ++ [node]) ++ (queue' ++ newQ) = (result ++ node :: queue') ++ newQ := by
          simp [List.append_assoc]
        rw [hre, List.nodup_append]
        exact ⟨ha, hQ_nodup, fun x hx hx' => hQ_fresh x hx' hx⟩
      have hb' : ∀ x ∈ (result ++ [node]) ++ (queue' ++ newQ), x ∈ g.nodes := by
        intro x hx
        simp only [List.mem_append, List.mem_singleton] at hx
        rcases hx with (hx | rfl) | hx | hx
        · exact hb x (List.mem_append_left _ hx)
        · exact hb x (by simp)
        · exact hb x (by simp [hx])
        · have := (hmemQ x).1 hx
          exact hinv.tgtMem _ ((hns_mem x).1 this.1)
      have hc' : ∀ n, indeg1 n =
          g.pairs.countP (fun p => decide (p.2 = n) && decide (p.1 ∉ result ++ [node])) := by
        intro n
        have hsplit := countP_split g.pairs
          (fun p => decide (p.2 = n) && decide (p.1 ∉ result))
          (fun p => decide (p.1 = node))
        have hcnt1 : g.pairs.countP (fun p =>
            (decide (p.2 = n) && decide (p.1 ∉ result)) && decide (p.1 = node)) =
            if (node, n) ∈ g.pairs then 1 else 0 := by
          have hstep : g.pairs.countP (fun p =>
              (decide (p.2 = n) && decide (p.1 ∉ result)) && decide (p.1 = node)) =
              g.pairs.countP (fun p => decide (p = (node, n))) := by
            rw [List.countP_eq_length_filter, List.countP_eq_length_filter]
            congr 1
            apply List.filter_congr
            intro p hp
            rw [Bool.eq_iff_iff]
            simp only [Bool.and_eq_true, decide_eq_true_eq]
            constructor
            · rintro ⟨⟨h2, _⟩, h1⟩
              obtain ⟨p1, p2⟩ := p
              simp only [Prod.mk.injEq]
              exact ⟨h1, h2⟩
            · rintro rfl
              exact ⟨⟨rfl, hnodeR⟩, rfl⟩
          rw [hstep]
          by_cases hmemp : (node, n) ∈ g.pairs
          · simp [countP_eq_single g.pairs hinv.pairsNodup (node, n), hmemp]
          · simp [countP_eq_single g.pairs hinv.pairsNodup (node, n), hmemp]
        have hcnt2 : g.pairs.countP (fun p =>
            decide (p.2 = n) && decide (p.1 ∉ result ++ [node])) =
            g.pairs.countP (fun p =>
            (decide (p.2 = n) && decide (p.1 ∉ result)) && !decide (p.1 = node)) := by
          rw [List.countP_eq_length_filter, List.countP_eq_length_filter]
          congr 1
          apply List.filter_congr
          intro p hp
          by_cases h2 : p.2 = n <;> by_cases hr : p.1 ∈ result <;> by_cases hn : p.1 = node <;>
            simp [h2, hr, hn, List.mem_append]
        rw [hfn n, hcnt2]
        by_cases hn : n ∈ ns
        · rw [if_pos hn]
          have h1 : (node, n) ∈ g.pairs := (hns_mem n).1 hn
          have hone := hcnt1.trans (if_pos h1)
          have h2 := hc n
          have h3 := hpos n hn
          omega
        · rw [if_neg hn]
          have h1 : (node, n) ∉ g.pairs := fun hc' => hn ((hns_mem n).2 hc')
          have hzero := hcnt1.trans (if_neg h1)
          have h2 := hc n
          omega
      have hd' : ∀ n ∈ g.nodes, indeg1 n = 0 → n ∈ (result ++ [node]) ++ (queue' ++ newQ) := by
        intro n hn h0
        rw [hfn n] at h0
        by_cases hmem : n ∈ ns
        · rw [if_pos hmem] at h0
          have h1 := hpos n hmem
          have : n ∈ newQ := (hmemQ n).2 ⟨hmem, by omega⟩
          simp [this]
        · rw [if_neg hmem] at h0
          have := hd n hn h0
          simp only [List.mem_append, List.mem_cons] at this
          simp only [List.mem_append, List.mem_singleton]
          tauto
      have he' : ∀ x ∈ (result ++ [node]) ++ (queue' ++ newQ), indeg1 x = 0 := by
        intro x hx
        rw [hfn x]
        simp only [List.mem_append, List.mem_singleton] at hx
        rcases hx with (hx | rfl) | hx | hx
        · have := he x (List.mem_append_left _ hx)
          by_cases hm : x ∈ ns <;> simp [hm] <;> omega
        · have hnode_ns : x ∉ ns := by
            intro hc'
            have := hpos x hc'
            omega
          simp [hnode_ns, hz]
        · have := he x (by simp [hx])
          by_cases hm : x ∈ ns <;> simp [hm] <;> omega
        · have h1 := (hmemQ x).1 hx
          simp [h1.1, h1.2]
      have hfuel' : g.nodes.length < fuel + (result ++ [node]).length := by
        simp only [List.length_append, List.length_singleton]
        omega
      have hres := ih (queue' ++ newQ) (result ++ [node]) indeg1 ha' hb' hc' hd' he' hfuel'
      rw [heq]
      refine ⟨hres.1, hres.2.1, ?_, hres.2.2.2⟩
      intro x hx
      apply hres.2.2.1
      simp only [List.mem_append, List.mem_cons] at hx
      simp only [List.mem_append, List.mem_singleton]
      tauto

/-- A nonempty set in which every member has a predecessor inside the set
contains a cycle. -/
theorem exists_cycle_of_preds (E : List (String × String)) (S : List String)
    (hne : S ≠ []) (h : ∀ n ∈ S, ∃ u, u ∈ S ∧ (u, n) ∈ E) :
    ∃ x, HasPath E x x := by
  classical
  obtain ⟨s0, hs0⟩ := List.exists_mem_of_ne_nil S hne
  have h' : ∀ n, ∃ u, n ∈ S → (u ∈ S ∧ (u, n) ∈ E) := by
    intro n
    by_cases hn : n ∈ S
    · obtain ⟨u, hu⟩ := h n hn
      exact ⟨u, fun _ => hu⟩
    · exact ⟨n, fun hc => absurd hc hn⟩
  choose f hf using h'
  have hiter : ∀ i : Nat, f^[i] s0 ∈ S := by
    intro i
    induction i with
    | zero => simpa using hs0
    | succ i ihi =>
      rw [Function.iterate_succ_apply']
      exact (hf _ ihi).1
  have hedge : ∀ i : Nat, (f^[i + 1] s0, f^[i] s0) ∈ E := by
    intro i
    rw [Function.iterate_succ_apply']
    exact (hf _ (hiter i)).2
  have hmaps : ∀ i ∈ Finset.range (S.toFinset.card + 1), f^[i] s0 ∈ S.toFinset := by
    intro i _
    exact List.mem_toFinset.2 (hiter i)
  obtain ⟨i, _, j, _, hij, hfeq⟩ :=
    Finset.exists_ne_map_eq_of_card_lt_of_maps_to (by simp) hmaps
  have hpath : ∀ a b : Nat, a < b → HasPath E (f^[b] s0) (f^[a] s0) := by
    intro a b
    induction b with
    | zero => omega
    | succ b ihb =>
      intro hab
      rcases Nat.lt_succ_iff_lt_or_eq.1 hab with hab' | hab'
      · exact HasPath.cons (hedge b) (ihb hab')
      · subst hab'
        exact HasPath.single (hedge a)
  rcases Nat.lt_or_ge i j with hlt | hge
  · exact ⟨f^[i] s0, hfeq ▸ hpath i j hlt⟩
  · have hlt : j < i := by omega
    exact ⟨f^[j] s0, hfeq ▸ hpath j i hlt⟩

/-- Kahn succeeds on every well-formed acyclic graph, producing a
permutation of the node set. -/
theorem toposort_ok (g : DAG) (hinv : DAGInv g) :
    ∃ l, g.topological_sort = Except.ok l ∧ l.Nodup ∧ (∀ x, x ∈ l ↔ x ∈ g.nodes) ∧
      l.length = g.nodes.length := by
  have hmaster := kahnLoop_master g hinv (g.nodes.length + 1)
    (g.nodes.filter (fun n => decide (g.inDegree n = 0))) [] g.inDegree
    (by simpa using (hinv.nodesNodup.filter _))
    (by
      intro x hx
      simp only [List.nil_append] at hx
      exact (List.mem_filter.1 hx).1)
    (by
      intro n
      unfold DAG.inDegree
      rw [List.countP_eq_length_filter]
      congr 1
      apply List.filter_congr
      intro p _
      simp)
    (by
      intro n hn h0
      simp only [List.nil_append, List.mem_filter]
      exact ⟨hn, by simpa using h0⟩)
    (by
      intro x hx
      simp only [List.nil_append, List.mem_filter] at hx
      simpa using hx.2)
    (by simp)
  set R := kahnLoop g (g.nodes.length + 1)
    (g.nodes.filter (fun n => decide (g.inDegree n = 0))) g.inDegree [] with hR
  obtain ⟨hRnd, hRsub, _, hRmiss⟩ := hmaster
  have hall : ∀ n ∈ g.nodes, n ∈ R := by
    by_contra hcon
    push_neg at hcon
    obtain ⟨n0, hn0, hn0R⟩ := hcon
    set S := g.nodes.filter (fun x => decide (x ∉ R)) with hS
    have hSne : S ≠ [] := by
      intro hc
      have : n0 ∈ S := List.mem_filter.2 ⟨hn0, by simpa using hn0R⟩
      rw [hc] at this
      simp at this
    have hpred : ∀ n ∈ S, ∃ u, u ∈ S ∧ (u, n) ∈ g.pairs := by
      intro n hn
      have hn' := List.mem_filter.1 hn
      obtain ⟨u, hu1, hu2, hu3⟩ := hRmiss n hn'.1 (by simpa using hn'.2)
      exact ⟨u, List.mem_filter.2 ⟨hu1, by simpa using hu2⟩, hu3⟩
    obtain ⟨x, hx⟩ := exists_cycle_of_preds g.pairs S hSne hpred
    exact hinv.acyclic x hx
  have hiff : ∀ x, x ∈ R ↔ x ∈ g.nodes := fun x => ⟨fun hx => hRsub x hx, fun hx => hall x hx⟩
  have hlen : R.length = g.nodes.length := by
    have h1 : List.Subperm R g.nodes := List.subperm_of_subset hRnd (fun x hx => hRsub x hx)
    have h2 : List.Subperm g.nodes R := List.subperm_of_subset hinv.nodesNodup hall
    exact Nat.le_antisymm h1.length_le h2.length_le
  refine ⟨R, ?_, hRnd, hiff, hlen⟩
  have hdef : g.topological_sort =
      if R.length ≠ g.nodes.length then Except.error DAGError.CycleDetected
      else Except.ok R := rfl
  rw [hdef, if_neg (by omega)]

/-- C7: For every graph reachable by any sequence of the DAG operations
(add_node, add_edge, remove_edge, clear_incoming_edges), topological_sort
returns Ok if and only if the graph is acyclic, and on success the
returned order has length |nodes| with every registered node appearing
exactly once. -/
theorem C7_toposort_iff_acyclic (g : DAG) (hg : Reachable g) :
    ((∃ l, g.topological_sort = Except.ok l) ↔ Acyclic g.pairs) ∧
    (∀ l, g.topological_sort = Except.ok l →
      l.length = g.nodes.length ∧ ∀ n ∈ g.nodes, l.count n = 1) := by
  have hinv := reachable_inv hg
  obtain ⟨l0, hl0, hnd, hiff, hlen⟩ := toposort_ok g hinv
  constructor
  · exact ⟨fun _ => hinv.acyclic, fun _ => ⟨l0, hl0⟩⟩
  · intro l hl
    rw [hl0] at hl
    obtain rfl := (Except.ok.inj hl)
    exact ⟨hlen, fun n hn => List.count_eq_one_of_mem hnd ((hiff n).2 hn)⟩

/-- Witness: the concrete two-node chain is reachable by the operations
and sorts to a permutation of its nodes. -/
theorem C7_witness :
    ((∃ l, gC7.topological_sort = Except.ok l) ↔ Acyclic gC7.pairs) ∧
    (∀ l, gC7.topological_sort = Except.ok l →
      l.length = gC7.nodes.length ∧ ∀ n ∈ gC7.nodes, l.count n = 1) :=
  C7_toposort_iff_acyclic gC7
    (@Reachable.add_edge ⟨["a", "b"], []⟩ gC7 "a" "b"
      (@Reachable.add_node ⟨["a"], []⟩ ⟨["a", "b"], []⟩ "b"
        (@Reachable.add_node DAG.new ⟨["a"], []⟩ "a" Reachable.new rfl) rfl) rfl)

/-- C8: add_edge(u,v) answers CycleDetected whenever a path v ⇒ u already
exists in the graph (including u = v). The embedding is functional, so the
error outcome carries no mutated graph — the node and edge sets are left
exactly as they were — and the definition of add_edge places the DFS cycle
check (would_create_cycle, a DFS from v searching for u) before the
insertion. -/
theorem C8_add_edge_cycle_guard (g : DAG) (hg : Reachable g) (u v : String)
    (hu : u ∈ g.nodes) (hv : v ∈ g.nodes)
    (hpath : HasPath g.pairs v u ∨ u = v) :
    g.add_edge u v = Except.error DAGError.CycleDetected := by
  have hinv := reachable_inv hg
  have hne : (u, v) ∉ g.pairs := by
    intro hc
    rcases hpath with hp | heq
    · exact hinv.acyclic u (HasPath.cons hc hp)
    · exact hinv.acyclic u (HasPath.single (heq ▸ hc))
  have hcyc : g.would_create_cycle u v = true :=
    would_create_cycle_complete g u v hinv.keysNodup hpath
  have h3 : v ∉ (lookupEdges g.edges u).getD [] := fun hc =>
    hne ((mem_get_children_iff hinv.keysNodup).1 hc)
  unfold DAG.add_edge
  rw [if_neg (not_not.mpr hu), if_neg (not_not.mpr hv), if_neg h3, if_pos hcyc]

/-- Witness: adding b → a to the chain a → b is rejected. -/
theorem C8_witness :
    gC8.add_edge "b" "a" = Except.error DAGError.CycleDetected :=
  C8_add_edge_cycle_guard gC8
    (@Reachable.add_edge ⟨["a", "b"], []⟩ gC8 "a" "b"
      (@Reachable.add_node ⟨["a"], []⟩ ⟨["a", "b"], []⟩ "b"
        (@Reachable.add_node DAG.new ⟨["a"], []⟩ "a" Reachable.new rfl) rfl) rfl)
    "b" "a" (by decide) (by decide) (Or.inl (HasPath.single (by decide)))

/-! String-containment helpers. -/

/-- Containment is reflexive. -/
theorem strContains_self (s : String) : strContains s s = true := by
  simp [strContains, List.infix_refl]

/-- Containment extends through a left prefix. -/
theorem strContains_extend_left (a b c : String) (h : strContains b a = true) :
    strContains (c ++ b) a = true := by
  simp only [strContains, decide_eq_true_eq] at h ⊢
  rw [String.data_append]
  obtain ⟨s, t, hst⟩ := h
  exact ⟨c.data ++ s, t, by rw [← hst]; simp [List.append_assoc]⟩

/-- Containment extends through a right suffix. -/
theorem strContains_extend_right (a b c : String) (h : strContains b a = true) :
    strContains (b ++ c) a = true := by
  simp only [strContains, decide_eq_true_eq] at h ⊢
  rw [String.data_append]
  obtain ⟨s, t, hst⟩ := h
  exact ⟨s, t ++ c.data, by rw [← hst]; simp [List.append_assoc]⟩

/-- A string is contained in its JSON string rendering. -/
theorem strContains_str_render (s : String) : strContains (Json.str s).render s = true := by
  have heq : (Json.str s).render = ("\"" ++ s) ++ "\"" := rfl
  rw [heq]
  exact strContains_extend_right s _ _ (strContains_extend_left s _ _ (strContains_self s))

/-- The rendering of an object contains each of its string field values. -/
theorem strContains_render_value (fields : List (String × Json)) (k s : String)
    (h : (k, Json.str s) ∈ fields) : strContains (Json.obj fields).render s = true := by
  have hmain : ∀ (rest : List (String × Json)) (f0 : String × Json),
      (k, Json.str s) ∈ f0 :: rest → strContains (renderObj (f0 :: rest)) s = true := by
    intro rest
    induction rest with
    | nil =>
      intro f0 hm
      simp only [List.mem_singleton] at hm
      obtain rfl := hm.symm
      have heq : renderObj [(k, Json.str s)] = ("\"" ++ k ++ "\":") ++ (Json.str s).render := rfl
      rw [heq]
      exact strContains_extend_left s _ _ (strContains_str_render s)
    | cons f1 rest ih =>
      intro f0 hm
      have hsplit : renderObj (f0 :: f1 :: rest) =
          ((("\"" ++ f0.1 ++ "\":") ++ f0.2.render) ++ ",") ++ renderObj (f1 :: rest) := by
        obtain ⟨k0, v0⟩ := f0
        simp [renderObj, String.append_assoc]
      rcases List.mem_cons.1 hm with heq | hm'
      · obtain rfl := heq.symm
        rw [hsplit]
        exact strContains_extend_right s _ _ (strContains_extend_right s _ _
          (strContains_extend_left s _ _ (strContains_str_render s)))
      · rw [hsplit]
        exact strContains_extend_left s _ _ (ih f1 hm')
  obtain ⟨f0, rest, hfr⟩ : ∃ f0 rest, fields = f0 :: rest := by
    cases fields with
    | nil => simp at h
    | cons a l => exact ⟨a, l, rfl⟩
  subst hfr
  have hobj : (Json.obj (f0 :: rest)).render = ("\x7b" ++ renderObj (f0 :: rest)) ++ "\x7d" := rfl
  rw [hobj]
  exact strContains_extend_right s _ _ (strContains_extend_left s _ _ (hmain rest f0 h))

/-! Claim theorems: pattern engine (C9, C5). -/

/-- C9: pattern trigger matching is substring containment, not equality —
the selection predicate collapses to containment of trigger_event in the
formatted event type (equality implies containment), so a trigger Agent
matches AgentStarted, AgentCompleted and AgentFailed, and an empty
trigger matches every event type. -/
theorem C9_trigger_matching_is_containment :
    (∀ (patterns : List Pattern) (et : String),
      get_patterns_for_trigger patterns et =
        patterns.filter (fun p => strContains et p.trigger_event)) ∧
    (∀ pat : Pattern, pat.trigger_event = "Agent" →
      pat ∈ get_patterns_for_trigger [pat] EventType.AgentStarted.debugFmt ∧
      pat ∈ get_patterns_for_trigger [pat] EventType.AgentCompleted.debugFmt ∧
      pat ∈ get_patterns_for_trigger [pat] EventType.AgentFailed.debugFmt) ∧
    (∀ (pat : Pattern) (et : String), pat.trigger_event = "" →
      pat ∈ get_patterns_for_trigger [pat] et) := by
  refine ⟨?_, ?_, ?_⟩
  · intro patterns et
    unfold get_patterns_for_trigger
    apply List.filter_congr
    intro p _
    by_cases h : p.trigger_event = et
    · subst h
      simp [strContains_self]
    · simp [h]
  · intro pat htr
    refine ⟨?_, ?_, ?_⟩ <;>
      exact List.mem_filter.2 ⟨by simp, by rw [htr]; decide⟩
  · intro pat et htr
    apply List.mem_filter.2
    refine ⟨by simp, ?_⟩
    have hc : strContains et "" = true := by
      simp [strContains]
    rw [htr, hc]
    simp

/-- Witness: the Agent trigger fires for the three Agent events. -/
theorem C9_witness :
    patC9.trigger_event = "Agent" ∧
    (patC9 ∈ get_patterns_for_trigger [patC9] EventType.AgentStarted.debugFmt ∧
     patC9 ∈ get_patterns_for_trigger [patC9] EventType.AgentCompleted.debugFmt ∧
     patC9 ∈ get_patterns_for_trigger [patC9] EventType.AgentFailed.debugFmt) :=
  ⟨rfl, C9_trigger_matching_is_containment.2.1 patC9 rfl⟩

/-- C5 counterexample: two registered patterns both match one AgentFailed
event (catch-all condition and substring trigger with substring condition)
and BOTH actions execute — the loop has no first-hit cutoff, refuting
"at most one matching pattern's action is executed per event". -/
theorem C5_counterexample :
    cortexProcessEvent [patC5a, patC5b] evC5 =
      [PatternAction.Interrupt "halt", PatternAction.RequestApproval "check"] ∧
    (cortexProcessEvent [patC5a, patC5b] evC5).length = 2 := ⟨rfl, rfl⟩

/-- C5 amended: the engine selects patterns by trigger containment,
evaluates each condition (catch-all or payload-serialization substring),
and executes the action of EVERY pattern whose condition hits, in
registry order — not only the first. -/
theorem C5_amended_every_hit_executes (patterns : List Pattern) (event : RuntimeEvent) :
    cortexProcessEvent patterns event =
      (patterns.filter (fun p =>
        (decide (p.trigger_event = event.event_type.debugFmt) ||
          strContains event.event_type.debugFmt p.trigger_event) &&
        (decide (p.condition = "*") || strContains event.payload.render p.condition))).map
        (fun p => p.action) := by
  unfold cortexProcessEvent get_patterns_for_trigger
  induction patterns with
  | nil => rfl
  | cons p ps ih =>
    simp only [List.filter_cons]
    by_cases h1 : (decide (p.trigger_event = event.event_type.debugFmt) ||
        strContains event.event_type.debugFmt p.trigger_event) = true
    · rw [if_pos h1]
      by_cases h2 : (decide (p.condition = "*") ||
          strContains event.payload.render p.condition) = true
      · rw [if_pos (by rw [h1, h2]; rfl)]
        simp only [List.filterMap_cons, List.map_cons]
        rw [if_pos h2]
        simp only [ih]
      · rw [if_neg (by rw [h1]; simpa using h2)]
        simp only [List.filterMap_cons]
        rw [if_neg h2]
        simp only [ih]
    · rw [if_neg h1]
      have hneg : ¬((decide (p.trigger_event = event.event_type.debugFmt) ||
          strContains event.event_type.debugFmt p.trigger_event) &&
          (decide (p.condition = "*") ||
          strContains event.payload.render p.condition)) = true := by
        simp only [Bool.and_eq_true]
        intro hc
        exact h1 hc.1
      rw [if_neg hneg]
      exact ih

/-! Claim theorems: rehydration (C3) and the status machine (C4). -/

/-- C3 counterexample: rehydrating a store whose active set holds a
running run rewrites the state to failed, but the run id is NOT removed
from sys:active_runs — the store comes back unchanged, refuting the
removal conjunct of the claim at this concrete input. -/
theorem C3_counterexample :
    (rehydrate_from_redis "u0" "t1" kvC3).2 = kvC3 ∧
    "r3" ∈ (rehydrate_from_redis "u0" "t1" kvC3).2.active_runs ∧
    (rehydrate_from_redis "u0" "t1" kvC3).1 =
      [("r3", rehydrateState "u0" "t1" stRunC3)] ∧
    (rehydrateState "u0" "t1" stRunC3).status = RuntimeStatus.Failed :=
  ⟨rfl, by decide, rfl, rfl⟩

/-- C3 amended: on boot rehydration every loaded running state is
rewritten to failed with the synthetic KERNEL invocation appended, other
statuses are restored unchanged, and the durable store — including
sys:active_runs — is left untouched (the id is only removed by a later
persist of the failed state). -/
theorem C3_amended_rehydration (uuid now : String) (kv : KvStore) (rid : String)
    (st0 : RuntimeState) (hload : lookupState kv.states rid = some st0)
    (hmem : rid ∈ kv.active_runs) :
    (rehydrate_from_redis uuid now kv).2 = kv ∧
    (rid, rehydrateState uuid now st0) ∈ (rehydrate_from_redis uuid now kv).1 ∧
    (st0.status = RuntimeStatus.Running →
      rehydrateState uuid now st0 =
        { st0 with
          status := RuntimeStatus.Failed
          invocations := st0.invocations ++
            [⟨uuid, "KERNEL", ModelVariant.Fast, none, [], 0, 0, InvocationStatus.Failed, now,
              none, some "Kernel restarted unexpectedly. Workflow terminated."⟩] }) ∧
    (st0.status ≠ RuntimeStatus.Running → rehydrateState uuid now st0 = st0) := by
  refine ⟨rfl, ?_, ?_, ?_⟩
  · exact List.mem_filterMap.2 ⟨rid, hmem, by rw [hload]; rfl⟩
  · intro h
    unfold rehydrateState
    rw [if_pos h]
  · intro h
    unfold rehydrateState
    rw [if_neg h]

/-- Witness: the crash scenario instantiated. -/
theorem C3_witness :
    (rehydrate_from_redis "u9" "t9" kvC3).2 = kvC3 ∧
    ("r3", rehydrateState "u9" "t9" stRunC3) ∈ (rehydrate_from_redis "u9" "t9" kvC3).1 ∧
    (stRunC3.status = RuntimeStatus.Running →
      rehydrateState "u9" "t9" stRunC3 =
        { stRunC3 with
          status := RuntimeStatus.Failed
          invocations := stRunC3.invocations ++
            [⟨"u9", "KERNEL", ModelVariant.Fast, none, [], 0, 0, InvocationStatus.Failed, "t9",
              none, some "Kernel restarted unexpectedly. Workflow terminated."⟩] }) ∧
    (stRunC3.status ≠ RuntimeStatus.Running → rehydrateState "u9" "t9" stRunC3 = stRunC3) :=
  C3_amended_rehydration "u9" "t9" kvC3 "r3" stRunC3 rfl (by decide)

/-- C4 counterexample: a completed run is not a sink — fail_run (the stop
endpoint's body) flips it to failed, and request_approval flips it to
awaiting_approval. -/
theorem C4_counterexample :
    stDoneC4.status = RuntimeStatus.Completed ∧
    (fail_run "u2" "t2" stDoneC4 "OPERATOR" "Manual Stop").status = RuntimeStatus.Failed ∧
    (request_approval "u3" "t3" stDoneC4 (some "a1") "check").1.status =
      RuntimeStatus.AwaitingApproval := ⟨rfl, rfl, rfl⟩

/-- C4 amended: terminal status is not guarded — fail_run (hence the stop
endpoint) unconditionally sets failed and request_approval unconditionally
sets awaiting_approval, from any prior status including completed and
failed; record_invocation never changes the status, and the resume
endpoint's set_run_status fires only when the run is awaiting_approval. -/
theorem C4_amended_terminal_not_guarded (uuid now : String) (s : RuntimeState)
    (agent error reason : String) (inv : AgentInvocation) (hasDag : Bool)
    (hterm : s.status ≠ RuntimeStatus.AwaitingApproval) :
    (fail_run uuid now s agent error).status = RuntimeStatus.Failed ∧
    (stop_run uuid now s).status = RuntimeStatus.Failed ∧
    (request_approval uuid now s (some agent) reason).1.status =
      RuntimeStatus.AwaitingApproval ∧
    (record_invocation s inv).status = s.status ∧
    (resume_run hasDag (some s)).2 = some s := by
  refine ⟨rfl, rfl, rfl, ?_, ?_⟩
  · obtain ⟨iid, aid, mv, ts, tu, tok, lat, ist, tst, art, err⟩ := inv
    cases ist <;> simp only [record_invocation] <;> first
      | rfl
      | (split <;> rfl)
  · cases hasDag <;> simp [resume_run, hterm]

/-- Witness: the amended status facts at the completed state. -/
theorem C4_witness :
    (fail_run "u4" "t4" stDoneC4 "OPERATOR" "Manual Stop").status = RuntimeStatus.Failed ∧
    (stop_run "u4" "t4" stDoneC4).status = RuntimeStatus.Failed ∧
    (request_approval "u4" "t4" stDoneC4 (some "OPERATOR") "why").1.status =
      RuntimeStatus.AwaitingApproval ∧
    (record_invocation stDoneC4 invC4).status = stDoneC4.status ∧
    (resume_run true (some stDoneC4)).2 = some stDoneC4 :=
  C4_amended_terminal_not_guarded "u4" "t4" stDoneC4 "OPERATOR" "Manual Stop" "why" invC4 true
    (by decide)

/-! Claim theorems: circuit breaker (C6) and context drought (C2). -/

/-- C6: when a successful research_ response lacks web_search evidence and
a bypass marker — or an analyze_/coder_ response lacks execute_python
evidence, or the response is a semantic null or a reported failure — the
circuit breaker fires: the run state only changes status, to
awaiting_approval (not failed, and no invocation is recorded), a
SystemIntervention then an AgentFailed event are emitted whose payloads
carry the pause reason, the loop breaks, and for the protocol cases the
reason contains Protocol Violation. -/
theorem C6_circuit_breaker (uuidA nowA uuidB nowB : String) (state : RuntimeState)
    (agent_id : String) (res : RemoteAgentResponse)
    (hfire :
      (strStartsWith agent_id "research_" = true ∧ is_bypassed (responseText res) = false ∧
        used_search (responseText res) = false) ∨
      ((strStartsWith agent_id "analyze_" = true ∨ strStartsWith agent_id "coder_" = true) ∧
        is_bypassed (responseText res) = false ∧ used_python (responseText res) = false) ∨
      is_semantic_null (responseText res) = true ∨
      res.success = false) :
    (scheduler_result_decision uuidA nowA uuidB nowB state agent_id res).1 =
      { state with status := RuntimeStatus.AwaitingApproval } ∧
    ((scheduler_result_decision uuidA nowA uuidB nowB state agent_id res).2.1.map
      (fun e => e.event_type)) = [EventType.SystemIntervention, EventType.AgentFailed] ∧
    (scheduler_result_decision uuidA nowA uuidB nowB state agent_id res).2.2 = true ∧
    (∀ e ∈ (scheduler_result_decision uuidA nowA uuidB nowB state agent_id res).2.1,
      strContains e.payload.render (pause_reason agent_id res) = true) ∧
    (is_semantic_null (responseText res) = false →
      (strStartsWith agent_id "research_" = true ∧ is_bypassed (responseText res) = false ∧
        used_search (responseText res) = false) ∨
      ((strStartsWith agent_id "analyze_" = true ∨ strStartsWith agent_id "coder_" = true) ∧
        is_bypassed (responseText res) = false ∧ used_python (responseText res) = false) →
      strContains (pause_reason agent_id res) "Protocol Violation" = true) := by
  have hpv : ∀ (h : (strStartsWith agent_id "research_" = true ∧
      is_bypassed (responseText res) = false ∧ used_search (responseText res) = false) ∨
      ((strStartsWith agent_id "analyze_" = true ∨ strStartsWith agent_id "coder_" = true) ∧
        is_bypassed (responseText res) = false ∧ used_python (responseText res) = false)),
      protocol_violation agent_id (responseText res) = some violationResearchMsg ∨
      protocol_violation agent_id (responseText res) = some violationAnalyzeMsg := by
    intro h
    unfold protocol_violation
    rcases h with ⟨h1, h2, h3⟩ | ⟨h1, h2, h3⟩
    · rw [h2]
      simp only [Bool.not_false, if_true]
      rw [if_pos (by rw [h1, h3]; rfl)]
      exact Or.inl rfl
    · rw [h2]
      simp only [Bool.not_false, if_true]
      by_cases hr : (strStartsWith agent_id "research_" &&
          !used_search (responseText res)) = true
      · rw [if_pos hr]
        exact Or.inl rfl
      · rw [if_neg hr]
        rw [if_pos (by
          rcases h1 with h1 | h1 <;> rw [h1, h3] <;> simp)]
        exact Or.inr rfl
  have hnothappy : happy_path agent_id res = false := by
    unfold happy_path
    rcases hfire with hcase | hcase | hnull | hfail
    · rcases hpv (Or.inl hcase) with hv | hv <;> simp [hv]
    · rcases hpv (Or.inr hcase) with hv | hv <;> simp [hv]
    · simp [hnull]
    · simp [hfail]
  have hdec : scheduler_result_decision uuidA nowA uuidB nowB state agent_id res =
      apply_circuit_breaker uuidA nowA uuidB nowB state agent_id res := by
    unfold scheduler_result_decision
    rw [hnothappy]
    simp
  rw [hdec]
  refine ⟨rfl, rfl, rfl, ?_, ?_⟩
  · intro e he
    have hform : (apply_circuit_breaker uuidA nowA uuidB nowB state agent_id res).2.1 =
        [RuntimeEvent.new uuidA nowA state.run_id EventType.SystemIntervention (some agent_id)
          (Json.obj [("action", Json.str "pause"),
            ("reason", Json.str (pause_reason agent_id res))]),
         RuntimeEvent.new uuidB nowB state.run_id EventType.AgentFailed (some agent_id)
          (Json.obj [("error", Json.str (pause_reason agent_id res)),
            ("recovery_hint", Json.str "Check Prompt or Data Sources")])] := rfl
    rw [hform] at he
    rcases List.mem_cons.1 he with rfl | he
    · exact strContains_render_value _ "reason" _ (by simp)
    · rcases List.mem_cons.1 he with rfl | he
      · exact strContains_render_value _ "error" _ (by simp)
      · simp at he
  · intro hnull hcase
    rcases hpv hcase with hv | hv
    · have hval : pause_reason agent_id res = violationResearchMsg := by
        unfold pause_reason
        simp only [hnull, Bool.false_eq_true, if_false, hv]
      rw [hval]
      decide
    · have hval : pause_reason agent_id res = violationAnalyzeMsg := by
        unfold pause_reason
        simp only [hnull, Bool.false_eq_true, if_false, hv]
      rw [hval]
      decide

/-- Witness: the research_q1 scenario — success, no evidence, no bypass —
pauses rather than fails, emits the AgentFailed event and breaks. -/
theorem C6_witness :
    (scheduler_result_decision "u1" "t1" "u2" "t2" stC6 "research_q1" resC6).1 =
      { stC6 with status := RuntimeStatus.AwaitingApproval } ∧
    ((scheduler_result_decision "u1" "t1" "u2" "t2" stC6 "research_q1" resC6).2.1.map
      (fun e => e.event_type)) = [EventType.SystemIntervention, EventType.AgentFailed] ∧
    (scheduler_result_decision "u1" "t1" "u2" "t2" stC6 "research_q1" resC6).2.2 = true ∧
    (∀ e ∈ (scheduler_result_decision "u1" "t1" "u2" "t2" stC6 "research_q1" resC6).2.1,
      strContains e.payload.render (pause_reason "research_q1" resC6) = true) ∧
    (is_semantic_null (responseText resC6) = false →
      (strStartsWith "research_q1" "research_" = true ∧
        is_bypassed (responseText resC6) = false ∧
        used_search (responseText resC6) = false) ∨
      ((strStartsWith "research_q1" "analyze_" = true ∨
        strStartsWith "research_q1" "coder_" = true) ∧
        is_bypassed (responseText resC6) = false ∧
        used_python (responseText resC6) = false) →
      strContains (pause_reason "research_q1" resC6) "Protocol Violation" = true) :=
  C6_circuit_breaker "u1" "t1" "u2" "t2" stC6 "research_q1" resC6
    (Or.inl ⟨by decide, by decide, by decide⟩)

/-- C2: evaluation of the drought scenario (root completed with a
semantic-null artifact and no files; child depends on root). The pre-check
does fire — prepare_invocation_payload pauses the run (awaiting_approval,
SystemIntervention emitted, no payload produced) and aborts with the
drought error — but the scheduler then hands that error to fail_run, so
the run ends failed with a failed invocation recorded for child, counter
to the claimed (and spec-stated) pause-only outcome. -/
theorem C2_drought_abort_is_failed :
    (prepare_invocation_payload "u1" "t1" ctxC2 "r2" "child").1 =
      Except.error "Halted: Contextual Data Drought" ∧
    (prepare_invocation_payload "u1" "t1" ctxC2 "r2" "child").2.1.status =
      RuntimeStatus.AwaitingApproval ∧
    ((prepare_invocation_payload "u1" "t1" ctxC2 "r2" "child").2.2.map
      (fun e => e.event_type)) = [EventType.SystemIntervention] ∧
    (scheduler_payload_phase "u1" "t1" "u2" "t2" ctxC2 "r2" "child").2.2 = none ∧
    (scheduler_payload_phase "u1" "t1" "u2" "t2" ctxC2 "r2" "child").1.status =
      RuntimeStatus.Failed ∧
    ((scheduler_payload_phase "u1" "t1" "u2" "t2" ctxC2 "r2" "child").1.invocations.map
      (fun i => (i.agent_id, i.status, i.error_message))) =
      [("child", InvocationStatus.Failed, some "Halted: Contextual Data Drought")] := by
  refine ⟨?_, ?_, ?_, ?_, ?_, ?_⟩ <;> rfl

/-! Claim theorems: delegation splice (C1) and add_node totality (C10). -/

/-- C1 counterexample: in the A/B workflow with Child-delegated nodes
X and Y←X, the splice leaves B depending on BOTH X and Y (not only the
sink Y), and the graph carries the extra edge X → B — so the claimed
exact shape A→X, X→Y, Y→B with B.depends_on = [Y] is false. -/
theorem C1_counterexample :
    delegC1Bdeps = some (some ["X", "Y"]) ∧
    delegC1Bdeps ≠ some (some ["Y"]) ∧
    (delegC1.map (fun r => decide (("X", "B") ∈ r.2.pairs))) = some true := by
  refine ⟨?_, ?_, ?_⟩ <;> decide

/-- C1 amended: the Child splice of the scenario produces exactly the
edges A→X, X→B, X→Y, Y→B (A→B removed) and rewrites B.depends_on to
[X, Y] — every existing dependent is rewired to every new node, as the
config-rewrite loop of handle_delegation does. -/
theorem C1_amended_child_splice :
    delegC1 = some
      ({ wfC1 with agents := [wfA, { wfB with depends_on := ["X", "Y"] }, nodeX, nodeY] },
       ⟨["A", "B", "X", "Y"], [("A", ["X"]), ("X", ["B", "Y"]), ("Y", ["B"])]⟩) := by
  decide

/-- C10: add_node is total (always Ok) and idempotent (an existing id
leaves the graph unchanged); consequently the start_workflow validation
accepts a workflow whose two agents share one id, collapsing them into a
single graph node instead of rejecting the submission. -/
theorem C10_add_node_total_idempotent (g : DAG) (n : String)
    (a1 a2 : AgentNodeConfig) (hid : a1.id = a2.id)
    (hd1 : a1.depends_on = []) (hd2 : a2.depends_on = []) :
    (g.add_node n).isOk = true ∧
    (n ∈ g.nodes → g.add_node n = Except.ok g) ∧
    start_workflow_validate ⟨"w", "n", [a1, a2], 0, 0, []⟩ = Except.ok ⟨[a1.id], []⟩ := by
  refine ⟨?_, ?_, ?_⟩
  · unfold DAG.add_node
    by_cases hn : n ∈ g.nodes
    · rw [if_pos hn]; rfl
    · rw [if_neg hn]; rfl
  · intro hn
    unfold DAG.add_node
    rw [if_pos hn]
  · have h1 : DAG.new.add_node a1.id = Except.ok ⟨[a1.id], []⟩ := rfl
    have h2 : (DAG.mk [a1.id] []).add_node a2.id = Except.ok ⟨[a1.id], []⟩ := by
      unfold DAG.add_node
      rw [if_pos (by rw [← hid]; exact List.mem_singleton.2 rfl)]
    have h3a : addAgentEdges ⟨[a1.id], []⟩ a1.id a1.depends_on = Except.ok ⟨[a1.id], []⟩ := by
      rw [hd1]; rfl
    have h3b : addAgentEdges ⟨[a1.id], []⟩ a2.id a2.depends_on = Except.ok ⟨[a1.id], []⟩ := by
      rw [hd2]; rfl
    have h4 : (DAG.mk [a1.id] []).topological_sort = Except.ok [a1.id] := rfl
    simp only [start_workflow_validate, addAllNodes, addAllDepEdges, h1, h2, h3a, h3b, h4]

/-- Witness: the duplicate-id workflow is accepted and collapses, and
add_node on a graph already holding the id is the identity. -/
theorem C10_witness :
    ((DAG.mk ["z", "dup"] []).add_node "dup").isOk = true ∧
    ("dup" ∈ (DAG.mk ["z", "dup"] []).nodes →
      (DAG.mk ["z", "dup"] []).add_node "dup" = Except.ok (DAG.mk ["z", "dup"] [])) ∧
    start_workflow_validate ⟨"w", "n", [agC10, agC10], 0, 0, []⟩ =
      Except.ok ⟨[agC10.id], []⟩ :=
  C10_add_node_total_idempotent (DAG.mk ["z", "dup"] []) "dup" agC10 agC10 rfl rfl rfl
